import Mathlib

/-!
# Attendance API (`app.js`)

A shallow embedding of the request handlers of `app.js` and of the store they
talk to, followed by the properties proved about them.

* JavaScript primitives: `String.prototype.trim`, `parseInt`, truthiness.
* The store: classes, students and attendance rows with generated ids, and the
  Prisma Client calls the handlers issue (`findUnique`, `findMany`, `create`,
  `upsert`, `$transaction`).
* The handlers, one definition per route, each taking the store and returning
  the store after the request together with the response.

Every store call can throw; a request carries a map `faults : Nat → Bool`
telling whether the k-th store call of that request fails (connection lost,
database locked, ...). The `catch` block of each handler turns a throw into
a 500 response.
-/

namespace AttendanceApi

/-! ## JavaScript primitives -/

/-- ECMAScript `WhiteSpace` and `LineTerminator` code points: what
`String.prototype.trim` strips and what `parseInt` skips at the start. -/
def isJsWhiteSpace (c : Char) : Bool :=
  let n := c.toNat
  n == 0x09 || n == 0x0A || n == 0x0B || n == 0x0C || n == 0x0D || n == 0x20 ||
  n == 0xA0 || n == 0x1680 || (0x2000 ≤ n && n ≤ 0x200A) || n == 0x2028 ||
  n == 0x2029 || n == 0x202F || n == 0x205F || n == 0x3000 || n == 0xFEFF

/-- `String.prototype.trim`: white space removed at both ends. -/
def jsTrim (s : String) : String :=
  String.mk ((s.data.dropWhile isJsWhiteSpace).reverse.dropWhile isJsWhiteSpace).reverse

/-- Value of a character as a digit (`0-9`, `a-z`, `A-Z`), if it is one. -/
def digitValue (c : Char) : Option Nat :=
  let n := c.toNat
  if 48 ≤ n ∧ n ≤ 57 then some (n - 48)
  else if 97 ≤ n ∧ n ≤ 122 then some (n - 87)
  else if 65 ≤ n ∧ n ≤ 90 then some (n - 55)
  else none

/-- The longest run of radix-`R` digits at the start of the characters. -/
def radixDigits (R : Nat) : List Char → List Nat
  | [] => []
  | c :: cs =>
    match digitValue c with
    | some d => if d < R then d :: radixDigits R cs else []
    | none => []

/-- The integer written by a list of radix-`R` digits. -/
def mathInt (R : Nat) (Z : List Nat) : Nat :=
  Z.foldl (fun acc d => acc * R + d) 0

/-- The Number value of a non-negative integer: itself below `2^53`, above
that the nearest double (ties to even), `none` when that is `Infinity`. -/
def toNumber (n : Nat) : Option Nat :=
  if n < 2 ^ 53 then some n
  else
    let e := Nat.log2 n - 52
    let q := n / 2 ^ e
    let r := n % 2 ^ e
    let half := 2 ^ (e - 1)
    let q1 := if half < r ∨ (r = half ∧ q % 2 = 1) then q + 1 else q
    let v := q1 * 2 ^ e
    if 2 ^ 1024 ≤ v then none else some v

/-- The global `parseInt(string)` without radix argument: leading white space
skipped, an optional sign, `0x`/`0X` selecting radix 16, then the longest run
of digits. `none` stands for a result that is not a finite number (`NaN` when
there is no digit, `Infinity` for an overlong run). -/
def parseInt (input : String) : Option Int :=
  let S := input.data.dropWhile isJsWhiteSpace
  let negative := S.head? == some '-'
  let S := match S with
    | '+' :: rest => rest
    | '-' :: rest => rest
    | _ => S
  let RS : Nat × List Char := match S with
    | '0' :: 'x' :: rest => (16, rest)
    | '0' :: 'X' :: rest => (16, rest)
    | _ => (10, S)
  let Z := radixDigits RS.1 RS.2
  if Z.isEmpty then none
  else
    match toNumber (mathInt RS.1 Z) with
    | none => none
    | some v => some (if negative then - (v : Int) else (v : Int))

/-- A property of a parsed JSON body as far as a handler looks at it: a
string, some other falsy value (property absent, `null`, `false`, `0`) or some
other truthy value (`true`, a non-zero number, an array, an object). -/
inductive JsonField where
  | str (s : String)
  | otherFalsy
  | otherTruthy
  deriving DecidableEq, Repr

/-- JavaScript truthiness of a body property. -/
def JsonField.truthy : JsonField → Bool
  | .str s => s != ""
  | .otherFalsy => false
  | .otherTruthy => true

/-! ## The upload -/

/-- One object of the array returned by `csvParse`: the cells under the
headers `unique_number` and `name`, `none` when the file has no such column. -/
structure CsvRow where
  unique_number : Option String
  name : Option String
  deriving DecidableEq, Repr

/-- What `c.req.formData()` and `formData.get` give: the body cannot be read
as form data (the call throws), no `File` under the key `file`, or a file
whose text `csvParse` turns into rows. -/
inductive Upload where
  | unreadable
  | noFile
  | file (rows : List CsvRow)
  deriving DecidableEq, Repr

/-- An element pushed to `studentsToCreate`. `classId` is the Number returned
by `parseInt`. -/
structure NewStudent where
  uniqueNumber : String
  name : String
  classId : Option Int
  deriving DecidableEq, Repr

/-- The two variables the loop over the rows fills: the `Set` `uniqueNumbers`
(in insertion order) and the array `studentsToCreate`. -/
structure ImportLoop where
  uniqueNumbers : List String
  studentsToCreate : List NewStudent
  deriving DecidableEq, Repr

/-- One iteration of `for (const row of rows)`. -/
def importStep (classId : Option Int) (acc : ImportLoop) (row : CsvRow) : ImportLoop :=
  match row.unique_number.map jsTrim, row.name.map jsTrim with
  | some uniqueNumber, some name =>
    if uniqueNumber ≠ "" ∧ name ≠ "" ∧ uniqueNumber ∉ acc.uniqueNumbers then
      { uniqueNumbers := acc.uniqueNumbers ++ [uniqueNumber]
        studentsToCreate := acc.studentsToCreate ++ [⟨uniqueNumber, name, classId⟩] }
    else acc
  | _, _ => acc

/-- The whole loop, started from the empty set and the empty array. -/
def importLoop (classId : Option Int) (rows : List CsvRow) : ImportLoop :=
  rows.foldl (importStep classId) ⟨[], []⟩

/-! ## The store -/

/-- Modelled from the spec: the Prisma schema file is not among the sources.
A `Class` row: generated unique id and a name. -/
structure Class where
  id : Int
  name : String
  deriving DecidableEq, Repr

/-- Modelled from the spec: the Prisma schema file is not among the sources.
A `Student` row: generated unique id, `uniqueNumber` (unique per class), name
and the class it belongs to. -/
structure Student where
  id : Int
  uniqueNumber : String
  name : String
  classId : Int
  deriving DecidableEq, Repr

/-- Modelled from the spec: the Prisma schema file is not among the sources.
An `Attendance` row: generated id, the student, the date as `yyyy-MM-dd` text
and the status text. -/
structure Attendance where
  id : Int
  studentId : Int
  date : String
  status : String
  deriving DecidableEq, Repr

/-- The database: the three tables in insertion order and the next value of
each id sequence. -/
structure Store where
  classes : List Class
  students : List Student
  attendances : List Attendance
  nextClassId : Int
  nextStudentId : Int
  nextAttendanceId : Int
  deriving DecidableEq, Repr

/-- The database right after the migrations: no rows, sequences at 1. -/
def Store.empty : Store := ⟨[], [], [], 1, 1, 1⟩

/-- Why a store call threw. -/
inductive StoreError where
  | unavailable
  | validation
  | foreignKey
  deriving DecidableEq, Repr

/-- The compound key `uniqueNumber_classId` of a student row. -/
def Student.hasKey (st : Student) (uniqueNumber : String) (classId : Int) : Bool :=
  st.uniqueNumber == uniqueNumber && st.classId == classId

/-- The compound key `studentId_date` of an attendance row. -/
def Attendance.hasKey (a : Attendance) (studentId : Int) (date : String) : Bool :=
  a.studentId == studentId && a.date == date

/-- `prisma.class.findUnique` by id. An id that is not a finite number is
rejected by the client before any query is sent. -/
def classFindUnique (fault : Bool) (id : Option Int) (s : Store) :
    Except StoreError (Option Class) :=
  if fault then .error .unavailable
  else
    match id with
    | none => .error .validation
    | some i => .ok (s.classes.find? (fun c => c.id == i))

/-- `prisma.class.create` with a name: the row gets the next id. A name that
is not a string is rejected by the client. -/
def classCreate (fault : Bool) (name : JsonField) (s : Store) :
    Except StoreError (Store × Class) :=
  if fault then .error .unavailable
  else
    match name with
    | .str n =>
      .ok ({ s with classes := s.classes ++ [⟨s.nextClassId, n⟩]
                    nextClassId := s.nextClassId + 1 }, ⟨s.nextClassId, n⟩)
    | _ => .error .validation

/-- `prisma.student.findUnique` on the compound key `uniqueNumber_classId`. -/
def studentFindUnique (fault : Bool) (uniqueNumber : JsonField) (classId : Option Int)
    (s : Store) : Except StoreError (Option Student) :=
  if fault then .error .unavailable
  else
    match uniqueNumber, classId with
    | .str u, some cid => .ok (s.students.find? (fun st => st.hasKey u cid))
    | _, _ => .error .validation

/-- `prisma.student.upsert` on the compound key `uniqueNumber_classId`: the
row with that key gets the name, or a new row is created and connected to the
class, which has to exist. -/
def studentUpsert (fault : Bool) (uniqueNumber : String) (classId : Option Int)
    (name : String) (s : Store) : Except StoreError Store :=
  if fault then .error .unavailable
  else
    match classId with
    | none => .error .validation
    | some cid =>
      if s.students.any (fun st => st.hasKey uniqueNumber cid) then
        .ok { s with students := s.students.map (fun st =>
                if st.hasKey uniqueNumber cid then { st with name := name } else st) }
      else if s.classes.any (fun c => c.id == cid) then
        .ok { s with students := s.students ++ [⟨s.nextStudentId, uniqueNumber, name, cid⟩]
                     nextStudentId := s.nextStudentId + 1 }
      else .error .foreignKey

/-- `prisma.attendance.upsert` on the compound key `studentId_date`: the row
with that key gets the status, or a new row is created and connected to the
student, which has to exist. -/
def attendanceUpsert (fault : Bool) (studentId : Int) (date : String) (status : String)
    (s : Store) : Except StoreError Store :=
  if fault then .error .unavailable
  else if s.attendances.any (fun a => a.hasKey studentId date) then
    .ok { s with attendances := s.attendances.map (fun a =>
            if a.hasKey studentId date then { a with status := status } else a) }
  else if s.students.any (fun st => st.id == studentId) then
    .ok { s with attendances := s.attendances ++ [⟨s.nextAttendanceId, studentId, date, status⟩]
                 nextAttendanceId := s.nextAttendanceId + 1 }
  else .error .foreignKey

/-- The relation filter of `findMany` on `attendances`. -/
inductive RelationFilter where
  | some
  | none
  deriving DecidableEq, Repr

/-- Whether a student has an attendance row with the date and the status. -/
def hasAttendance (s : Store) (studentId : Int) (date status : String) : Bool :=
  s.attendances.any (fun a => a.studentId == studentId && a.date == date && a.status == status)

/-- `prisma.student.findMany` with `where: classId, attendances: some/none of
date and status`: the students of the class with at least one such attendance
row (`some`), or with no such row (`none`), in table order. -/
def studentFindMany (fault : Bool) (classId : Option Int) (rel : RelationFilter)
    (date status : String) (s : Store) : Except StoreError (List Student) :=
  if fault then .error .unavailable
  else
    match classId with
    | Option.none => .error .validation
    | Option.some cid =>
      .ok (s.students.filter (fun st =>
        st.classId == cid &&
          (match rel with
           | .some => hasAttendance s st.id date status
           | .none => !hasAttendance s st.id date status)))

/-- The operations of a batch run one after the other, each on the result of
the one before; the first throw ends the run. -/
def runBatch : List (Store → Except StoreError Store) → Store → Except StoreError Store
  | [], s => .ok s
  | op :: ops, s =>
    match op s with
    | .error e => .error e
    | .ok s1 => runBatch ops s1

/-- `prisma.$transaction` on an array of operations: they are committed
together, and when one throws the database is rolled back to what it was and
the error is thrown on. Returns the database afterwards and the outcome. -/
def transaction (ops : List (Store → Except StoreError Store)) (s : Store) :
    Store × Except StoreError Unit :=
  match runBatch ops s with
  | .ok s1 => (s1, .ok ())
  | .error e => (s, .error e)

/-! ## Responses -/

/-- An element of `present_students` or `absent_students`. -/
structure Listed where
  unique_number : String
  name : String
  deriving DecidableEq, Repr

/-- The bodies the handlers send. -/
inductive Body where
  | text (t : String)
  | error (error : String)
  | classCreated (message : String) (class_id : Int)
  | usersImported (message : String) (total_users : Nat)
  | userNotFound (message : String) (unique_number : JsonField)
  | attendanceUpdated (message : String) (unique_number : JsonField) (status : String)
  | present (class_id : Option Int) (date : String) (present_students : List Listed)
  | absent (class_id : Option Int) (date : String) (absent_students : List Listed)
  deriving DecidableEq, Repr

/-- A response: HTTP status and body. -/
structure Response where
  status : Nat
  body : Body
  deriving DecidableEq, Repr

/-- The value of `total_users` in a body, if the body has one. -/
def Body.totalUsers : Body → Option Nat
  | .usersImported _ n => Option.some n
  | _ => Option.none

/-! ## The handlers -/

/-- `GET /`. -/
def getRoot : Response := ⟨200, .text "Attendance API is running"⟩

/-- `POST /api/classes`. `body` is the `class_name` property of the parsed
JSON body, `none` when `c.req.json()` throws or the body is `null`. -/
def postClasses (s : Store) (body : Option JsonField) (faults : Nat → Bool) :
    Store × Response :=
  match body with
  | none => (s, ⟨500, .error "Failed to create class"⟩)
  | some class_name =>
    if !class_name.truthy then (s, ⟨400, .error "Class name is required"⟩)
    else
      match classCreate (faults 0) class_name s with
      | .error _ => (s, ⟨500, .error "Failed to create class"⟩)
      | .ok (s1, newClass) => (s1, ⟨201, .classCreated "Class created" newClass.id⟩)

/-- The array `studentsToCreate.map(student => prisma.student.upsert(...))`;
the upsert of the j-th element is store call `k + j` of the request. -/
def upserts (faults : Nat → Bool) (classId : Option Int) :
    Nat → List NewStudent → List (Store → Except StoreError Store)
  | _, [] => []
  | k, student :: rest =>
    studentUpsert (faults k) student.uniqueNumber classId student.name ::
      upserts faults classId (k + 1) rest

/-- `POST /api/classes/:class_id/import`. -/
def postImport (s : Store) (class_id : String) (upload : Upload) (faults : Nat → Bool) :
    Store × Response :=
  let classId := parseInt class_id
  match classFindUnique (faults 0) classId s with
  | .error _ => (s, ⟨500, .error "Failed to import users"⟩)
  | .ok none => (s, ⟨404, .error "Class not found"⟩)
  | .ok (some _) =>
    match upload with
    | .unreadable => (s, ⟨500, .error "Failed to import users"⟩)
    | .noFile => (s, ⟨400, .error "CSV file is required"⟩)
    | .file rows =>
      if rows.length = 0 then (s, ⟨400, .error "CSV file is empty or invalid"⟩)
      else
        let loop := importLoop classId rows
        match transaction (upserts faults classId 1 loop.studentsToCreate) s with
        | (s1, .error _) => (s1, ⟨500, .error "Failed to import users"⟩)
        | (s1, .ok _) => (s1, ⟨200, .usersImported "Users imported" loop.uniqueNumbers.length⟩)

/-- `POST /api/classes/:class_id/attendance`. `body` is the `unique_number`
property of the parsed JSON body, `none` when `c.req.json()` throws or the
body is `null`; `today` is `format(new Date(), 'yyyy-MM-dd')`. -/
def postAttendance (s : Store) (class_id : String) (body : Option JsonField)
    (today : String) (faults : Nat → Bool) : Store × Response :=
  let classId := parseInt class_id
  match body with
  | none => (s, ⟨500, .error "Failed to mark attendance"⟩)
  | some unique_number =>
    if !unique_number.truthy then (s, ⟨400, .error "Unique number is required"⟩)
    else
      match studentFindUnique (faults 0) unique_number classId s with
      | .error _ => (s, ⟨500, .error "Failed to mark attendance"⟩)
      | .ok none => (s, ⟨404, .userNotFound "User not found" unique_number⟩)
      | .ok (some student) =>
        match attendanceUpsert (faults 1) student.id today "Present" s with
        | .error _ => (s, ⟨500, .error "Failed to mark attendance"⟩)
        | .ok s1 => (s1, ⟨200, .attendanceUpdated "Attendance updated" unique_number "Present"⟩)

/-- `dateParam || format(new Date(), 'yyyy-MM-dd')`: the query parameter
unless it is absent or empty. -/
def dateOrToday (dateParam : Option String) (today : String) : String :=
  match dateParam with
  | some d => if d = "" then today else d
  | none => today

/-- The `select` and `map` of the two list handlers. -/
def listed (st : Student) : Listed := ⟨st.uniqueNumber, st.name⟩

/-- `GET /api/classes/:class_id/present`. -/
def getPresent (s : Store) (class_id : String) (dateParam : Option String)
    (today : String) (faults : Nat → Bool) : Response :=
  let classId := parseInt class_id
  let date := dateOrToday dateParam today
  match classFindUnique (faults 0) classId s with
  | .error _ => ⟨500, .error "Failed to fetch present members"⟩
  | .ok none => ⟨404, .error "Class not found"⟩
  | .ok (some _) =>
    match studentFindMany (faults 1) classId .some date "Present" s with
    | .error _ => ⟨500, .error "Failed to fetch present members"⟩
    | .ok presentStudents => ⟨200, .present classId date (presentStudents.map listed)⟩

/-- `GET /api/classes/:class_id/absent`. -/
def getAbsent (s : Store) (class_id : String) (dateParam : Option String)
    (today : String) (faults : Nat → Bool) : Response :=
  let classId := parseInt class_id
  let date := dateOrToday dateParam today
  match classFindUnique (faults 0) classId s with
  | .error _ => ⟨500, .error "Failed to fetch absent members"⟩
  | .ok none => ⟨404, .error "Class not found"⟩
  | .ok (some _) =>
    match studentFindMany (faults 1) classId .none date "Present" s with
    | .error _ => ⟨500, .error "Failed to fetch absent members"⟩
    | .ok absentStudents => ⟨200, .absent classId date (absentStudents.map listed)⟩

/-- No store call of the request fails. -/
def noFaults : Nat → Bool := fun _ => false

/-! ## Requests and runs -/

/-- A request to one of the routes, with what its handler reads from the
outside: the clock and the faults of its store calls. -/
inductive Request where
  | root
  | createClass (body : Option JsonField) (faults : Nat → Bool)
  | importStudents (class_id : String) (upload : Upload) (faults : Nat → Bool)
  | markAttendance (class_id : String) (body : Option JsonField) (today : String)
      (faults : Nat → Bool)
  | listPresent (class_id : String) (dateParam : Option String) (today : String)
      (faults : Nat → Bool)
  | listAbsent (class_id : String) (dateParam : Option String) (today : String)
      (faults : Nat → Bool)

/-- The route table: the store after the request and the response. -/
def handle (s : Store) : Request → Store × Response
  | .root => (s, getRoot)
  | .createClass body faults => postClasses s body faults
  | .importStudents class_id upload faults => postImport s class_id upload faults
  | .markAttendance class_id body today faults => postAttendance s class_id body today faults
  | .listPresent class_id dateParam today faults =>
    (s, getPresent s class_id dateParam today faults)
  | .listAbsent class_id dateParam today faults =>
    (s, getAbsent s class_id dateParam today faults)

/-- The store after a sequence of requests, served one after the other. -/
def run (s : Store) : List Request → Store
  | [] => s
  | req :: rest => run (handle s req).1 rest

/-! ## Notions used in the statements, and sample data -/

/-- JavaScript falsiness of a cell after `?.trim()`: `undefined` or empty. -/
def blank : Option String → Bool
  | none => true
  | some v => v == ""

/-- The value the loop would retain for a cell: its trimmed text. -/
def CsvRow.trimmedNumber (row : CsvRow) : Option String := row.unique_number.map jsTrim

/-- The trimmed text of the name cell. -/
def CsvRow.trimmedName (row : CsvRow) : Option String := row.name.map jsTrim

/-- Whether the loop skips a row, given the numbers retained so far. -/
def skips (retained : List String) (row : CsvRow) : Bool :=
  blank row.trimmedNumber || blank row.trimmedName ||
    retained.contains (row.trimmedNumber.getD "")

/-- The class with this id is in the store. -/
def Store.hasClass (s : Store) (classId : Int) : Bool :=
  s.classes.any (fun c => c.id == classId)

/-- The students of a class, in table order. -/
def Store.studentsOf (s : Store) (classId : Int) : List Student :=
  s.students.filter (fun st => st.classId == classId)

/-- The unique index on `(uniqueNumber, classId)` of the student table. -/
def Store.uniqueStudents (s : Store) : Prop :=
  (s.students.map (fun st => (st.uniqueNumber, st.classId))).Nodup

/-- The unique index on `(studentId, date)` of the attendance table. -/
def Store.uniqueAttendance (s : Store) : Prop :=
  (s.attendances.map (fun a => (a.studentId, a.date))).Nodup

/-- What a successful `student.upsert` makes of the store. -/
def applyUpsert (s : Store) (uniqueNumber : String) (classId : Int) (name : String) : Store :=
  if s.students.any (fun st => st.hasKey uniqueNumber classId) then
    { s with students := s.students.map (fun st =>
        if st.hasKey uniqueNumber classId then { st with name := name } else st) }
  else
    { s with students := s.students ++ [⟨s.nextStudentId, uniqueNumber, name, classId⟩]
             nextStudentId := s.nextStudentId + 1 }

/-- What a successful batch of upserts makes of the store. -/
def applyUpserts (classId : Int) (l : List NewStudent) (s : Store) : Store :=
  l.foldl (fun acc st => applyUpsert acc st.uniqueNumber classId st.name) s

/-- A store with the class 1 and nothing else. -/
def oneClass : Store := ⟨[⟨1, "Math"⟩], [], [], 2, 1, 1⟩

/-- Two rows for two students. -/
def twoRows : List CsvRow := [⟨some "1", some "Ann"⟩, ⟨some "2", some "Bob"⟩]

/-- The store `oneClass` after the import of `twoRows` into class 1. -/
def twoStudents : Store :=
  ⟨[⟨1, "Math"⟩], [⟨1, "1", "Ann", 1⟩, ⟨2, "2", "Bob", 1⟩], [], 2, 3, 1⟩

/-- Whether a path parameter is the text of an integer: an optional sign and
then decimal digits only. -/
def isIntegerText (param : String) : Bool :=
  let digits := match param.data with
    | '-' :: rest => rest
    | '+' :: rest => rest
    | all => all
  !digits.isEmpty && digits.all Char.isDigit

/-- The students with a key all carry this name, and there is one. -/
def named (s : Store) (u : String) (cid : Int) (n : String) : Prop :=
  (∃ y ∈ s.students, y.hasKey u cid = true) ∧
    ∀ y ∈ s.students, y.hasKey u cid = true → y.name = n

/-- Whether a row carries a non-empty trimmed number and a non-empty trimmed
name. -/
def usable (row : CsvRow) : Bool :=
  !blank row.trimmedNumber && !blank row.trimmedName

/-- The number of distinct `unique_number` values occurring in the rows, as
written in the file. -/
def distinctNumbers (rows : List CsvRow) : Nat :=
  (rows.filterMap (fun row => row.unique_number)).dedup.length

/-- The number of distinct trimmed numbers of the usable rows. -/
def distinctUsableNumbers (rows : List CsvRow) : Nat :=
  ((rows.filter usable).map (fun row => row.trimmedNumber.getD "")).dedup.length

/-- The name, as written in the file, of the first row carrying the number as
written in the file. -/
def firstRowName (rows : List CsvRow) (u : String) : Option String :=
  (rows.find? (fun row => row.unique_number == some u)).bind (fun row => row.name)

/-- The trimmed name of the first usable row whose trimmed number is the
given one. -/
def firstUsableName (rows : List CsvRow) (u : String) : Option String :=
  (rows.find? (fun row => usable row && row.trimmedNumber == some u)).bind
    (fun row => row.trimmedName)

/-- Three rows: a student, the same number again with a blank in front, and a
number without a name. -/
def threeRows : List CsvRow :=
  [⟨some "7", some "Ann"⟩, ⟨some " 7", some "Ann B"⟩, ⟨some "8", some ""⟩]

/-- Two rows with the same number, the first without a name. -/
def lateName : List CsvRow := [⟨some "7", some ""⟩, ⟨some "7", some "Bob"⟩]

/-- What a successful `attendance.upsert` makes of the store. -/
def applyAttendance (s : Store) (studentId : Int) (date status : String) : Store :=
  if s.attendances.any (fun a => a.hasKey studentId date) then
    { s with attendances := s.attendances.map (fun a =>
        if a.hasKey studentId date then { a with status := status } else a) }
  else
    { s with attendances := s.attendances ++ [⟨s.nextAttendanceId, studentId, date, status⟩]
             nextAttendanceId := s.nextAttendanceId + 1 }

/-- Whether the request is a mark for this number in this class, served on
this date and answered 200. -/
def marks (s : Store) (req : Request) (classId : Int) (uniqueNumber date : String) : Bool :=
  match req with
  | .markAttendance class_id body today faults =>
    parseInt class_id == some classId && body == some (.str uniqueNumber) && today == date &&
      (postAttendance s class_id body today faults).2.status == 200
  | _ => false

/-- Whether, in a run of requests from a store, the number was marked in the
class on the date. -/
def markedIn (classId : Int) (uniqueNumber date : String) : Store → List Request → Bool
  | _, [] => false
  | s, req :: rest =>
    marks s req classId uniqueNumber date ||
      markedIn classId uniqueNumber date (handle s req).1 rest

/-- The constraints of the student table: ids unique, `(uniqueNumber,
classId)` unique, ids below the next value of the sequence. -/
structure Store.WF (s : Store) : Prop where
  ids : (s.students.map (fun st => st.id)).Nodup
  keys : s.uniqueStudents
  below : ∀ st ∈ s.students, st.id < s.nextStudentId

/-- A class is created, two students are imported into it, the first of them
is marked on a day. -/
def schoolDay : List Request :=
  [.createClass (some (.str "Math")) noFaults,
   .importStudents "1" (.file twoRows) noFaults,
   .markAttendance "1" (some (.str "1")) "2024-05-06" noFaults]

/-! ## Properties of the loop over the rows -/

theorem importLoop_snoc (classId : Option Int) (pre : List CsvRow) (row : CsvRow) :
    importLoop classId (pre ++ [row]) = importStep classId (importLoop classId pre) row := by
  simp [importLoop, List.foldl_append]

theorem importStep_eq (classId : Option Int) (acc : ImportLoop) (row : CsvRow) :
    importStep classId acc row =
      if skips acc.uniqueNumbers row then acc
      else
        { uniqueNumbers := acc.uniqueNumbers ++ [row.trimmedNumber.getD ""]
          studentsToCreate := acc.studentsToCreate ++
            [⟨row.trimmedNumber.getD "", row.trimmedName.getD "", classId⟩] } := by
  unfold importStep skips CsvRow.trimmedNumber CsvRow.trimmedName
  cases hu : row.unique_number <;> cases hn : row.name <;> simp [blank]
  rename_i u n
  by_cases h1 : jsTrim u = "" <;> by_cases h2 : jsTrim n = "" <;>
    by_cases h3 : jsTrim u ∈ acc.uniqueNumbers <;> simp [h1, h2, h3]

theorem importStep_skip {classId : Option Int} {acc : ImportLoop} {row : CsvRow}
    (h : skips acc.uniqueNumbers row = true) : importStep classId acc row = acc := by
  rw [importStep_eq, if_pos h]

theorem importStep_keep {classId : Option Int} {acc : ImportLoop} {row : CsvRow}
    (h : skips acc.uniqueNumbers row = false) :
    importStep classId acc row =
      { uniqueNumbers := acc.uniqueNumbers ++ [row.trimmedNumber.getD ""]
        studentsToCreate := acc.studentsToCreate ++
          [⟨row.trimmedNumber.getD "", row.trimmedName.getD "", classId⟩] } := by
  rw [importStep_eq, if_neg (by simp [h])]

theorem skips_false_iff {retained : List String} {row : CsvRow} :
    skips retained row = false ↔
      ∃ u n, row.trimmedNumber = some u ∧ row.trimmedName = some n ∧ u ≠ "" ∧ n ≠ "" ∧
        u ∉ retained := by
  unfold skips
  cases hu : row.trimmedNumber <;> cases hn : row.trimmedName <;> simp [blank, and_assoc]

/-- The set `uniqueNumbers` holds the numbers of `studentsToCreate`, in order. -/
theorem importLoop_numbers (classId : Option Int) (rows : List CsvRow) :
    (importLoop classId rows).uniqueNumbers =
      (importLoop classId rows).studentsToCreate.map (fun st => st.uniqueNumber) := by
  induction rows using List.reverseRecOn with
  | nil => rfl
  | append_singleton pre row ih =>
    rw [importLoop_snoc, importStep_eq]
    split
    · exact ih
    · simp [ih]

theorem importLoop_nodup (classId : Option Int) (rows : List CsvRow) :
    (importLoop classId rows).uniqueNumbers.Nodup := by
  induction rows using List.reverseRecOn with
  | nil => simp [importLoop]
  | append_singleton pre row ih =>
    rw [importLoop_snoc, importStep_eq]
    split
    · exact ih
    · rename_i h
      have h1 : skips (importLoop classId pre).uniqueNumbers row = false := by simpa using h
      obtain ⟨u, n, hu, hn, _, _, hmem⟩ := skips_false_iff.1 h1
      simp only [hu, Option.getD_some]
      exact List.Nodup.append ih (List.nodup_singleton u) (by simpa using hmem)

theorem importLoop_mem (classId : Option Int) (rows : List CsvRow) (st : NewStudent)
    (hst : st ∈ (importLoop classId rows).studentsToCreate) :
    st.uniqueNumber ≠ "" ∧ st.name ≠ "" ∧ st.classId = classId ∧
      ∃ row ∈ rows, row.trimmedNumber = some st.uniqueNumber ∧
        row.trimmedName = some st.name := by
  induction rows using List.reverseRecOn with
  | nil => simp [importLoop] at hst
  | append_singleton pre row ih =>
    rw [importLoop_snoc, importStep_eq] at hst
    split at hst
    · obtain ⟨a, b, c, r, hr, hh⟩ := ih hst
      exact ⟨a, b, c, r, by simp [hr], hh⟩
    · rename_i h
      have h1 : skips (importLoop classId pre).uniqueNumbers row = false := by simpa using h
      obtain ⟨u, n, hu, hn, hu0, hn0, _⟩ := skips_false_iff.1 h1
      simp only [List.mem_append, List.mem_singleton] at hst
      rcases hst with hst | hst
      · obtain ⟨a, b, c, r, hr, hh⟩ := ih hst
        exact ⟨a, b, c, r, by simp [hr], hh⟩
      · subst hst
        simp only [hu, hn, Option.getD_some]
        exact ⟨hu0, hn0, trivial, row, by simp, hu, hn⟩

theorem importLoop_sublist (classId : Option Int) (rows : List CsvRow) :
    List.Sublist
      ((importLoop classId rows).studentsToCreate.map
        (fun st => (some st.uniqueNumber, some st.name)))
      (rows.map (fun row => (row.trimmedNumber, row.trimmedName))) := by
  induction rows using List.reverseRecOn with
  | nil => simp [importLoop]
  | append_singleton pre row ih =>
    rw [importLoop_snoc, importStep_eq]
    split
    · rw [List.map_append]
      exact ih.trans (List.sublist_append_left _ _)
    · rename_i h
      have h1 : skips (importLoop classId pre).uniqueNumbers row = false := by simpa using h
      obtain ⟨u, n, hu, hn, _, _, _⟩ := skips_false_iff.1 h1
      simp only [List.map_append, List.map_cons, List.map_nil, hu, hn, Option.getD_some]
      exact List.Sublist.append ih (List.Sublist.refl _)

theorem foldl_importStep_append (classId : Option Int) (post : List CsvRow) (acc : ImportLoop) :
    ∃ more, (post.foldl (importStep classId) acc).studentsToCreate =
      acc.studentsToCreate ++ more := by
  induction post generalizing acc with
  | nil => exact ⟨[], by simp⟩
  | cons row post ih =>
    obtain ⟨more, hm⟩ := ih (importStep classId acc row)
    rw [List.foldl_cons, hm, importStep_eq]
    split
    · exact ⟨more, rfl⟩
    · exact ⟨⟨row.trimmedNumber.getD "", row.trimmedName.getD "", classId⟩ :: more, by simp⟩

theorem importLoop_append (classId : Option Int) (pre post : List CsvRow) :
    ∃ more, (importLoop classId (pre ++ post)).studentsToCreate =
      (importLoop classId pre).studentsToCreate ++ more := by
  unfold importLoop
  rw [List.foldl_append]
  exact foldl_importStep_append classId post _

theorem upserts_length (faults : Nat → Bool) (classId : Option Int) (k : Nat)
    (l : List NewStudent) : (upserts faults classId k l).length = l.length := by
  induction l generalizing k with
  | nil => rfl
  | cons st rest ih => simp [upserts, ih]

theorem postImport_totalUsers (s : Store) (class_id : String) (rows : List CsvRow)
    (faults : Nat → Bool) (n : Nat)
    (h : (postImport s class_id (.file rows) faults).2.body.totalUsers = some n) :
    n = (importLoop (parseInt class_id) rows).uniqueNumbers.length := by
  unfold postImport at h
  simp only at h
  split at h
  · simp [Body.totalUsers] at h
  · simp [Body.totalUsers] at h
  · split at h
    · simp [Body.totalUsers] at h
    · split at h
      · simp [Body.totalUsers] at h
      · simp [Body.totalUsers] at h
        exact h.symm

/-- C10: the loop over the parsed rows retains students whose number and name
are the trimmed, non-empty cells of some row; the retained numbers are
pairwise distinct; the retained students follow the order of the file; a row is
skipped exactly when its trimmed number or trimmed name is missing or empty or
its trimmed number was retained before, and is appended otherwise, staying in
the final array; and `total_users` is the length of the retained array, which
is the number of upserts issued. -/
theorem importLoop_retained (classId : Option Int) (rows : List CsvRow) :
    (∀ st ∈ (importLoop classId rows).studentsToCreate,
        st.uniqueNumber ≠ "" ∧ st.name ≠ "" ∧ st.classId = classId ∧
          ∃ row ∈ rows, row.unique_number.map jsTrim = some st.uniqueNumber ∧
            row.name.map jsTrim = some st.name) ∧
    ((importLoop classId rows).studentsToCreate.map (fun st => st.uniqueNumber)).Nodup ∧
    List.Sublist
      ((importLoop classId rows).studentsToCreate.map
        (fun st => (some st.uniqueNumber, some st.name)))
      (rows.map (fun row => (row.unique_number.map jsTrim, row.name.map jsTrim))) ∧
    (∀ pre row post, rows = pre ++ row :: post →
        (importLoop classId (pre ++ [row]) = importLoop classId pre ↔
          (blank (row.unique_number.map jsTrim) = true ∨ blank (row.name.map jsTrim) = true ∨
            (row.unique_number.map jsTrim).getD "" ∈
              (importLoop classId pre).studentsToCreate.map (fun st => st.uniqueNumber))) ∧
        (importLoop classId (pre ++ [row]) ≠ importLoop classId pre →
          (importLoop classId (pre ++ [row])).studentsToCreate =
            (importLoop classId pre).studentsToCreate ++
              [⟨(row.unique_number.map jsTrim).getD "", (row.name.map jsTrim).getD "",
                classId⟩]) ∧
        (importLoop classId (pre ++ [row])).studentsToCreate <+:
          (importLoop classId rows).studentsToCreate) ∧
    (importLoop classId rows).uniqueNumbers.length =
      (importLoop classId rows).studentsToCreate.length ∧
    (∀ (s : Store) (class_id : String) (faults : Nat → Bool) (n : Nat),
        parseInt class_id = classId →
        (postImport s class_id (.file rows) faults).2.body.totalUsers = some n →
        n = (importLoop classId rows).studentsToCreate.length ∧
          (upserts faults classId 1 (importLoop classId rows).studentsToCreate).length = n) := by
  have hlen : (importLoop classId rows).uniqueNumbers.length =
      (importLoop classId rows).studentsToCreate.length := by
    rw [importLoop_numbers, List.length_map]
  refine ⟨?_, ?_, ?_, ?_, hlen, ?_⟩
  · intro st hst
    exact importLoop_mem classId rows st hst
  · rw [← importLoop_numbers]
    exact importLoop_nodup classId rows
  · exact importLoop_sublist classId rows
  · intro pre row post hrows
    have hstep := importStep_eq classId (importLoop classId pre) row
    rw [← importLoop_snoc] at hstep
    have hsk : skips (importLoop classId pre).uniqueNumbers row = true ↔
        (blank (row.unique_number.map jsTrim) = true ∨ blank (row.name.map jsTrim) = true ∨
          (row.unique_number.map jsTrim).getD "" ∈
            (importLoop classId pre).studentsToCreate.map (fun st => st.uniqueNumber)) := by
      rw [← importLoop_numbers]
      simp [skips, CsvRow.trimmedNumber, CsvRow.trimmedName, or_assoc]
    refine ⟨?_, ?_, ?_⟩
    · rw [← hsk]
      constructor
      · intro heq
        by_contra hne
        rw [hstep, if_neg hne] at heq
        have := congrArg (fun l => l.uniqueNumbers.length) heq
        simp at this
      · intro h
        rw [hstep, if_pos h]
    · intro hne
      by_cases h : skips (importLoop classId pre).uniqueNumbers row = true
      · exact absurd (by rw [hstep, if_pos h]) hne
      · rw [hstep, if_neg h]
        rfl
    · obtain ⟨more, hm⟩ := importLoop_append classId (pre ++ [row]) post
      rw [hrows]
      have : pre ++ row :: post = (pre ++ [row]) ++ post := by simp
      rw [this, hm]
      exact List.prefix_append _ _
  · intro s class_id faults n hp hn
    have h := postImport_totalUsers s class_id rows faults n hn
    rw [hp] at h
    rw [upserts_length, h, hlen]
    exact ⟨rfl, rfl⟩

/-! ## The store: constraints and the effect of the upserts -/

theorem hasKey_iff (st : Student) (u : String) (cid : Int) :
    st.hasKey u cid = true ↔ st.uniqueNumber = u ∧ st.classId = cid := by
  simp [Student.hasKey]

theorem studentUpsert_ok {fault : Bool} {u n : String} {cid : Int} {s s1 : Store}
    (h : studentUpsert fault u (some cid) n s = .ok s1) :
    fault = false ∧ s1 = applyUpsert s u cid n := by
  unfold studentUpsert at h
  unfold applyUpsert
  cases fault
  · simp only [Bool.false_eq_true, if_false] at h
    split at h
    · simp only [Except.ok.injEq] at h
      rename_i hk
      rw [if_pos hk]
      exact ⟨rfl, h.symm⟩
    · rename_i hk
      split at h
      · simp only [Except.ok.injEq] at h
        rw [if_neg hk]
        exact ⟨rfl, h.symm⟩
      · cases h
  · simp at h

theorem studentUpsert_succeeds {u n : String} {cid : Int} {s : Store}
    (hc : s.hasClass cid = true) :
    studentUpsert false u (some cid) n s = .ok (applyUpsert s u cid n) := by
  unfold studentUpsert applyUpsert
  simp only [Bool.false_eq_true, if_false]
  unfold Store.hasClass at hc
  rw [if_pos hc]
  split <;> rfl

theorem studentUpsert_fault {u n : String} {classId : Option Int} {s : Store} :
    studentUpsert true u classId n s = .error .unavailable := by
  simp [studentUpsert]

theorem applyUpsert_classes (s : Store) (u : String) (cid : Int) (n : String) :
    (applyUpsert s u cid n).classes = s.classes ∧
    (applyUpsert s u cid n).attendances = s.attendances ∧
    (applyUpsert s u cid n).nextClassId = s.nextClassId ∧
    (applyUpsert s u cid n).nextAttendanceId = s.nextAttendanceId := by
  unfold applyUpsert
  split <;> simp

theorem applyUpsert_hasClass (s : Store) (u : String) (cid : Int) (n : String) (c : Int) :
    (applyUpsert s u cid n).hasClass c = s.hasClass c := by
  unfold Store.hasClass
  rw [(applyUpsert_classes s u cid n).1]

theorem applyUpserts_classes (cid : Int) (l : List NewStudent) (s : Store) :
    (applyUpserts cid l s).classes = s.classes ∧
    (applyUpserts cid l s).attendances = s.attendances ∧
    (applyUpserts cid l s).nextClassId = s.nextClassId ∧
    (applyUpserts cid l s).nextAttendanceId = s.nextAttendanceId := by
  induction l generalizing s with
  | nil => simp [applyUpserts]
  | cons st rest ih =>
    have h := ih (applyUpsert s st.uniqueNumber cid st.name)
    have h0 := applyUpsert_classes s st.uniqueNumber cid st.name
    simp only [applyUpserts, List.foldl_cons] at h ⊢
    rw [h.1, h.2.1, h.2.2.1, h.2.2.2]
    exact h0

theorem applyUpserts_hasClass (cid : Int) (l : List NewStudent) (s : Store) (c : Int) :
    (applyUpserts cid l s).hasClass c = s.hasClass c := by
  unfold Store.hasClass
  rw [(applyUpserts_classes cid l s).1]

/-- A batch that ran through made of the store what `applyUpserts` says. -/
theorem runBatch_upserts_ok {faults : Nat → Bool} {cid : Int} {k : Nat}
    {l : List NewStudent} {s s1 : Store}
    (h : runBatch (upserts faults (some cid) k l) s = .ok s1) :
    s1 = applyUpserts cid l s := by
  induction l generalizing s k with
  | nil =>
    simp only [upserts, runBatch, Except.ok.injEq] at h
    simp [applyUpserts, h]
  | cons st rest ih =>
    simp only [upserts, runBatch] at h
    split at h
    · cases h
    · rename_i s2 hs2
      have := (studentUpsert_ok hs2).2
      subst this
      exact ih h

/-- Without faults, on a store that has the class, the batch runs through. -/
theorem runBatch_upserts_succeeds {faults : Nat → Bool} {cid : Int} {k : Nat}
    {l : List NewStudent} {s : Store} (hc : s.hasClass cid = true)
    (hf : ∀ j, j < l.length → faults (k + j) = false) :
    runBatch (upserts faults (some cid) k l) s = .ok (applyUpserts cid l s) := by
  induction l generalizing s k with
  | nil => rfl
  | cons st rest ih =>
    simp only [upserts, runBatch]
    have h0 : faults k = false := by simpa using hf 0 (by simp)
    rw [h0, studentUpsert_succeeds hc]
    simp only
    have hc1 : (applyUpsert s st.uniqueNumber cid st.name).hasClass cid = true := by
      rw [applyUpsert_hasClass]; exact hc
    rw [ih hc1]
    · rfl
    · intro j hj
      have := hf (j + 1) (by simpa using hj)
      rw [← this]; congr 1; omega

/-- A fault at one of the upserts makes the batch throw. -/
theorem runBatch_upserts_fault {faults : Nat → Bool} {classId : Option Int} {k : Nat}
    {l : List NewStudent} {s : Store} (j : Nat) (hj : j < l.length)
    (hf : faults (k + j) = true) :
    ∃ e, runBatch (upserts faults classId k l) s = .error e := by
  induction l generalizing s k j with
  | nil => simp at hj
  | cons st rest ih =>
    simp only [upserts, runBatch]
    split
    · exact ⟨_, rfl⟩
    · cases j with
      | zero =>
        rename_i s1 hs1
        simp only [Nat.add_zero] at hf
        rw [hf, studentUpsert_fault] at hs1
        cases hs1
      | succ j =>
        apply ih j (by simpa using hj)
        rw [← hf]; congr 1; omega

/-! ## The import handler, case by case -/

theorem classFindUnique_found {fault : Bool} {id : Option Int} {s : Store} {c : Class}
    (h : classFindUnique fault id s = .ok (some c)) :
    fault = false ∧ ∃ cid, id = some cid ∧ s.hasClass cid = true := by
  unfold classFindUnique at h
  cases fault
  · simp only [Bool.false_eq_true, if_false] at h
    cases id with
    | none => cases h
    | some cid =>
      simp only [Except.ok.injEq] at h
      refine ⟨rfl, cid, rfl, ?_⟩
      unfold Store.hasClass
      have := List.find?_some h
      exact List.any_eq_true.2 ⟨c, List.mem_of_find?_eq_some h, this⟩
  · simp at h

theorem classFindUnique_hasClass {cid : Int} {s : Store} (hc : s.hasClass cid = true) :
    ∃ c, classFindUnique false (some cid) s = .ok (some c) := by
  unfold Store.hasClass at hc
  obtain ⟨c, hmem, hid⟩ := List.any_eq_true.1 hc
  unfold classFindUnique
  simp only [Bool.false_eq_true, if_false]
  cases hfind : s.classes.find? (fun c => c.id == cid) with
  | none =>
    have := List.find?_eq_none.1 hfind c hmem
    exact absurd hid this
  | some c1 => exact ⟨c1, rfl⟩

/-- The import of a file for a class that is found, up to the transaction. -/
theorem postImport_file {s : Store} {class_id : String} {cid : Int} {rows : List CsvRow}
    {faults : Nat → Bool} (hp : parseInt class_id = some cid) (hf : faults 0 = false)
    (hc : s.hasClass cid = true) (hr : rows ≠ []) :
    postImport s class_id (.file rows) faults =
      match runBatch (upserts faults (some cid) 1 (importLoop (some cid) rows).studentsToCreate)
          s with
      | .ok s1 =>
        (s1, ⟨200, .usersImported "Users imported"
          (importLoop (some cid) rows).uniqueNumbers.length⟩)
      | .error _ => (s, ⟨500, .error "Failed to import users"⟩) := by
  obtain ⟨c, hfind⟩ := classFindUnique_hasClass hc
  have hlen : rows.length ≠ 0 := by simpa using hr
  unfold postImport transaction
  simp only [hp, hf, hfind, hlen, if_false]
  cases runBatch (upserts faults (some cid) 1 (importLoop (some cid) rows).studentsToCreate) s <;>
    rfl

/-- What a 200 from the import tells. -/
theorem postImport_ok {s : Store} {class_id : String} {upload : Upload} {faults : Nat → Bool}
    (h : (postImport s class_id upload faults).2.status = 200) :
    ∃ cid rows, parseInt class_id = some cid ∧ faults 0 = false ∧ s.hasClass cid = true ∧
      upload = .file rows ∧ rows ≠ [] ∧
      runBatch (upserts faults (some cid) 1 (importLoop (some cid) rows).studentsToCreate) s =
        .ok (applyUpserts cid (importLoop (some cid) rows).studentsToCreate s) ∧
      postImport s class_id upload faults =
        (applyUpserts cid (importLoop (some cid) rows).studentsToCreate s,
          ⟨200, .usersImported "Users imported"
            (importLoop (some cid) rows).uniqueNumbers.length⟩) := by
  have h0 := h
  unfold postImport at h
  simp only at h
  split at h
  · simp at h
  · simp at h
  · rename_i c hfind
    obtain ⟨hf, cid, hp, hc⟩ := classFindUnique_found hfind
    split at h
    · simp at h
    · simp at h
    · rename_i rows
      split at h
      · simp at h
      · rename_i hlen
        have hr : rows ≠ [] := by simpa using hlen
        have hfile := postImport_file hp hf hc hr
        refine ⟨cid, rows, hp, hf, hc, rfl, hr, ?_⟩
        cases hrun : runBatch (upserts faults (some cid) 1
            (importLoop (some cid) rows).studentsToCreate) s with
        | error e =>
          rw [hrun] at hfile
          rw [hfile] at h0
          simp at h0
        | ok s1 =>
          have hs1 := runBatch_upserts_ok hrun
          rw [hrun] at hfile
          subst hs1
          exact ⟨rfl, hfile⟩

/-- Whatever the import answers other than 200, it leaves the store as it was. -/
theorem postImport_not_ok (s : Store) (class_id : String) (upload : Upload)
    (faults : Nat → Bool) (h : (postImport s class_id upload faults).2.status ≠ 200) :
    (postImport s class_id upload faults).1 = s := by
  unfold postImport transaction at h ⊢
  simp only at h ⊢
  split
  · rfl
  · rfl
  · split
    · rfl
    · rfl
    · split
      · rfl
      · rename_i c0 hfind up rows hlen
        cases hrun : runBatch (upserts faults (parseInt class_id) 1
            (importLoop (parseInt class_id) rows).studentsToCreate) s with
        | error e => rfl
        | ok s1 =>
          rw [hfind] at h
          simp [hlen, hrun] at h

/-! ## Atomicity of the import -/

/-- C4: the import is all-or-nothing. For a class that exists, when the store
fails on one of the upserts of the batch (the j-th, store call `1 + j` of the
request), the response is 500 and the store is what it was before the request;
and whenever the import answers anything but 200 the store is what it was, so
no student is written outside the transaction. -/
theorem postImport_all_or_nothing (s : Store) (class_id : String) (cid : Int)
    (rows : List CsvRow) (faults : Nat → Bool) (j : Nat)
    (hp : parseInt class_id = some cid) (hc : s.hasClass cid = true)
    (hj : j < (importLoop (some cid) rows).studentsToCreate.length)
    (hf : faults (1 + j) = true) :
    (postImport s class_id (.file rows) faults).2.status = 500 ∧
    (postImport s class_id (.file rows) faults).1 = s ∧
    (postImport s class_id (.file rows) faults).1.students = s.students ∧
    (∀ (upload2 : Upload) (faults2 : Nat → Bool),
      (postImport s class_id upload2 faults2).2.status ≠ 200 →
        (postImport s class_id upload2 faults2).1 = s) := by
  have hstatus : (postImport s class_id (.file rows) faults).2.status = 500 := by
    cases h0 : faults 0 with
    | true => simp [postImport, classFindUnique, h0]
    | false =>
      have hr : rows ≠ [] := by
        intro h
        rw [h] at hj
        simp [importLoop] at hj
      rw [postImport_file hp h0 hc hr]
      obtain ⟨e, he⟩ := @runBatch_upserts_fault faults (some cid) 1 _ s j hj hf
      rw [he]
  have hstore := postImport_not_ok s class_id (.file rows) faults (by rw [hstatus]; decide)
  exact ⟨hstatus, hstore, by rw [hstore], fun upload2 faults2 h =>
    postImport_not_ok s class_id upload2 faults2 h⟩

/-- The second of two upserts fails: the first is rolled back. -/
theorem postImport_all_or_nothing_witness :
    (parseInt "1" = some 1 ∧ oneClass.hasClass 1 = true ∧
      1 < (importLoop (some 1) twoRows).studentsToCreate.length ∧
      (fun k => k == 2) (1 + 1) = true) ∧
    (postImport oneClass "1" (.file twoRows) (fun k => k == 2)).2.status = 500 ∧
    (postImport oneClass "1" (.file twoRows) (fun k => k == 2)).1 = oneClass :=
  ⟨⟨by decide, by decide, by decide, by decide⟩,
    (postImport_all_or_nothing oneClass "1" 1 twoRows (fun k => k == 2) 1
      (by decide) (by decide) (by decide) (by decide)).1,
    (postImport_all_or_nothing oneClass "1" 1 twoRows (fun k => k == 2) 1
      (by decide) (by decide) (by decide) (by decide)).2.1⟩

/-! ## Files without usable rows -/

theorem importLoop_all_skipped (classId : Option Int) (rows : List CsvRow)
    (h : ∀ row ∈ rows, blank (row.unique_number.map jsTrim) = true ∨
      blank (row.name.map jsTrim) = true) :
    importLoop classId rows = ⟨[], []⟩ := by
  have hst : (importLoop classId rows).studentsToCreate = [] := by
    apply List.eq_nil_iff_forall_not_mem.2
    intro st hst
    obtain ⟨hu, hn, _, row, hrow, hru, hrn⟩ := importLoop_mem classId rows st hst
    unfold CsvRow.trimmedNumber at hru
    unfold CsvRow.trimmedName at hrn
    rcases h row hrow with hb | hb
    · rw [hru] at hb
      simp [blank] at hb
      exact hu hb
    · rw [hrn] at hb
      simp [blank] at hb
      exact hn hb
  have hnum := importLoop_numbers classId rows
  rw [hst] at hnum
  cases hl : importLoop classId rows with
  | mk us sts =>
    rw [hl] at hst hnum
    simp only at hst hnum
    simp [hst, hnum]

/-- C7, the counterexample: a file with one row and neither column, so with
zero rows carrying both a `unique_number` and a `name`, is answered 200 with
`total_users` 0, not 400. -/
theorem postImport_invalid_rows_counterexample :
    ([(⟨none, none⟩ : CsvRow)].filter
        (fun row => row.unique_number.isSome && row.name.isSome)).length = 0 ∧
    oneClass.hasClass 1 = true ∧
    postImport oneClass "1" (.file [⟨none, none⟩]) noFaults =
      (oneClass, ⟨200, .usersImported "Users imported" 0⟩) ∧
    (postImport oneClass "1" (.file [⟨none, none⟩]) noFaults).2.status ≠ 400 := by
  decide

/-- C7, amended: for a class that exists, a file that yields zero rows is
answered 400 and the store stays as it was; a file that yields rows none of
which carries both a non-empty trimmed `unique_number` and a non-empty trimmed
`name` is answered 200 with `total_users` 0, and the store stays as it was. -/
theorem postImport_no_usable_rows (s : Store) (class_id : String) (cid : Int)
    (faults : Nat → Bool) (hp : parseInt class_id = some cid)
    (hc : s.hasClass cid = true) (hf : faults 0 = false) :
    postImport s class_id (.file []) faults =
      (s, ⟨400, .error "CSV file is empty or invalid"⟩) ∧
    (∀ rows : List CsvRow, rows ≠ [] →
      (∀ row ∈ rows, blank (row.unique_number.map jsTrim) = true ∨
        blank (row.name.map jsTrim) = true) →
      postImport s class_id (.file rows) faults =
        (s, ⟨200, .usersImported "Users imported" 0⟩)) := by
  constructor
  · obtain ⟨c, hfind⟩ := classFindUnique_hasClass hc
    simp [postImport, hp, hf, hfind]
  · intro rows hr hrows
    rw [postImport_file hp hf hc hr, importLoop_all_skipped (some cid) rows hrows]
    rfl

/-- An empty file and a file with two unusable rows, for class 1. -/
theorem postImport_no_usable_rows_witness :
    (parseInt "1" = some 1 ∧ oneClass.hasClass 1 = true ∧ noFaults 0 = false) ∧
    postImport oneClass "1" (.file []) noFaults =
      (oneClass, ⟨400, .error "CSV file is empty or invalid"⟩) ∧
    postImport oneClass "1" (.file [⟨some "7", some "  "⟩, ⟨none, some "Ann"⟩]) noFaults =
      (oneClass, ⟨200, .usersImported "Users imported" 0⟩) :=
  ⟨⟨by decide, by decide, by decide⟩,
    (postImport_no_usable_rows oneClass "1" 1 noFaults (by decide) (by decide) (by decide)).1,
    (postImport_no_usable_rows oneClass "1" 1 noFaults (by decide) (by decide) (by decide)).2
      [⟨some "7", some "  "⟩, ⟨none, some "Ann"⟩] (by decide) (by decide)⟩

/-! ## The `class_id` path parameter -/

/-- C8, the counterexample: `1abc` is not an integer, and each of the four
operations serves it as class 1 and answers 200, not 400. -/
theorem malformed_class_id_counterexample :
    isIntegerText "1abc" = false ∧
    (postImport oneClass "1abc" (.file twoRows) noFaults).2.status = 200 ∧
    (postAttendance twoStudents "1abc" (some (.str "1")) "2024-05-06" noFaults).2.status = 200 ∧
    (getPresent twoStudents "1abc" none "2024-05-06" noFaults).status = 200 ∧
    (getAbsent twoStudents "1abc" none "2024-05-06" noFaults).status = 200 := by
  decide

/-- C8, amended: the `class_id` path parameter is not validated. It goes
through `parseInt`, and the four operations depend on it through that value
only, so a parameter with a leading integer is served as that integer. No
operation answers 400 because of `class_id`: list-present and list-absent never
answer 400; import answers 400 exactly when the class was found and the file
part is missing or yields zero rows; mark-attendance answers 400 exactly when
`unique_number` is falsy, whatever `class_id` is. -/
theorem class_id_not_validated :
    (∀ (s : Store) (p q : String), parseInt p = parseInt q →
      (∀ upload faults, postImport s p upload faults = postImport s q upload faults) ∧
      (∀ body today faults,
        postAttendance s p body today faults = postAttendance s q body today faults) ∧
      (∀ dateParam today faults,
        getPresent s p dateParam today faults = getPresent s q dateParam today faults) ∧
      (∀ dateParam today faults,
        getAbsent s p dateParam today faults = getAbsent s q dateParam today faults)) ∧
    (∀ (s : Store) (p : String) (dateParam : Option String) (today : String)
      (faults : Nat → Bool),
      (getPresent s p dateParam today faults).status ≠ 400 ∧
      (getAbsent s p dateParam today faults).status ≠ 400) ∧
    (∀ (s : Store) (p : String) (upload : Upload) (faults : Nat → Bool),
      (postImport s p upload faults).2.status = 400 ↔
        (∃ c, classFindUnique (faults 0) (parseInt p) s = .ok (some c)) ∧
          (upload = .noFile ∨ upload = .file [])) ∧
    (∀ (s : Store) (p : String) (body : Option JsonField) (today : String)
      (faults : Nat → Bool),
      (postAttendance s p body today faults).2.status = 400 ↔
        ∃ v, body = some v ∧ v.truthy = false) := by
  refine ⟨?_, ?_, ?_, ?_⟩
  · intro s p q h
    refine ⟨?_, ?_, ?_, ?_⟩
    · intro upload faults
      simp only [postImport, h]
    · intro body today faults
      simp only [postAttendance, h]
    · intro dateParam today faults
      simp only [getPresent, h]
    · intro dateParam today faults
      simp only [getAbsent, h]
  · intro s p dateParam today faults
    constructor
    · unfold getPresent
      simp only
      split
      · simp
      · simp
      · split <;> simp
    · unfold getAbsent
      simp only
      split
      · simp
      · simp
      · split <;> simp
  · intro s p upload faults
    unfold postImport transaction
    simp only
    split
    · rename_i h
      simp [h]
    · rename_i h
      simp [h]
    · rename_i c h
      simp only [h]
      split
      · simp
      · simp
      · rename_i rows
        split
        · rename_i hlen
          have : rows = [] := by simpa using hlen
          simp [this]
        · rename_i hlen
          have : rows ≠ [] := by simpa using hlen
          cases runBatch (upserts faults (parseInt p) 1
            (importLoop (parseInt p) rows).studentsToCreate) s <;> simp [this]
  · intro s p body today faults
    unfold postAttendance
    simp only
    split
    · simp
    · rename_i v
      cases ht : v.truthy
      · simp [ht]
      · simp only [Bool.not_true, Bool.false_eq_true, if_false]
        split
        · simp [ht]
        · simp [ht]
        · split <;> simp [ht]

/-! ## What the upserts do to the student table -/

/-- In a list without two elements of the same key, the elements with the key
of a member are that member alone. -/
theorem filter_key_singleton {α β : Type} (f : α → β) (p : α → Bool) (l : List α) (x : α)
    (hn : (l.map f).Nodup) (hx : x ∈ l) (hp : ∀ y, p y = true ↔ f y = f x) :
    l.filter p = [x] := by
  induction l with
  | nil => simp at hx
  | cons a rest ih =>
    rw [List.map_cons, List.nodup_cons] at hn
    rcases List.mem_cons.1 hx with hxa | hxr
    · subst hxa
      have hrest : rest.filter p = [] := by
        apply List.filter_eq_nil_iff.2
        intro y hy hpy
        exact hn.1 (List.mem_map.2 ⟨y, hy, (hp y).1 hpy⟩)
      rw [List.filter_cons_of_pos ((hp x).2 rfl), hrest]
    · have hpa : ¬ p a = true := by
        intro hpa
        exact hn.1 (List.mem_map.2 ⟨x, hxr, ((hp a).1 hpa).symm⟩)
      rw [List.filter_cons_of_neg hpa]
      exact ih hn.2 hxr

theorem applyUpsert_students_present {s : Store} {u n : String} {cid : Int}
    (h : s.students.any (fun st => st.hasKey u cid) = true) :
    (applyUpsert s u cid n).students = s.students.map (fun st =>
      if st.hasKey u cid then { st with name := n } else st) ∧
    (applyUpsert s u cid n).nextStudentId = s.nextStudentId := by
  unfold applyUpsert
  rw [if_pos h]
  exact ⟨rfl, rfl⟩

theorem applyUpsert_students_absent {s : Store} {u n : String} {cid : Int}
    (h : s.students.any (fun st => st.hasKey u cid) = false) :
    (applyUpsert s u cid n).students = s.students ++ [⟨s.nextStudentId, u, n, cid⟩] ∧
    (applyUpsert s u cid n).nextStudentId = s.nextStudentId + 1 := by
  unfold applyUpsert
  rw [if_neg (by simp [h])]
  exact ⟨rfl, rfl⟩

/-- An upsert keeps the ids and the keys of the rows there were, in order,
and adds at most one row, with the next id. -/
theorem applyUpsert_keys (s : Store) (u n : String) (cid : Int) :
    (applyUpsert s u cid n).students.map (fun st => (st.id, st.uniqueNumber, st.classId)) =
      s.students.map (fun st => (st.id, st.uniqueNumber, st.classId)) ++
        (if s.students.any (fun st => st.hasKey u cid) then []
         else [(s.nextStudentId, u, cid)]) := by
  cases h : s.students.any (fun st => st.hasKey u cid)
  · rw [(applyUpsert_students_absent h).1]
    simp
  · rw [(applyUpsert_students_present h).1]
    simp only [List.map_map, if_true, List.append_nil]
    apply List.map_congr_left
    intro st _
    simp only [Function.comp]
    split <;> rfl

theorem applyUpsert_unique {s : Store} (u n : String) (cid : Int) (h : s.uniqueStudents) :
    (applyUpsert s u cid n).uniqueStudents := by
  unfold Store.uniqueStudents at h ⊢
  have hk := congrArg (List.map (fun t : Int × String × Int => (t.2.1, t.2.2)))
    (applyUpsert_keys s u n cid)
  simp only [List.map_map, List.map_append] at hk
  have e : ∀ l : List Student,
      List.map ((fun t : Int × String × Int => (t.2.1, t.2.2)) ∘
        fun st : Student => (st.id, st.uniqueNumber, st.classId)) l =
      l.map (fun st => (st.uniqueNumber, st.classId)) := fun l => rfl
  rw [e, e] at hk
  rw [hk]
  cases hany : s.students.any (fun st => st.hasKey u cid)
  · simp only [Bool.false_eq_true, if_false, List.map_cons, List.map_nil]
    apply List.Nodup.append h (List.nodup_singleton _)
    intro a ha hb
    rw [List.mem_singleton] at hb
    subst hb
    obtain ⟨st, hst, heq⟩ := List.mem_map.1 ha
    have : st.hasKey u cid = true := by
      rw [hasKey_iff]
      exact ⟨congrArg Prod.fst heq, congrArg Prod.snd heq⟩
    have h2 := List.any_eq_false.1 hany st hst
    exact h2 this
  · simpa using h

theorem applyUpserts_unique {s : Store} (cid : Int) (l : List NewStudent)
    (h : s.uniqueStudents) : (applyUpserts cid l s).uniqueStudents := by
  induction l generalizing s with
  | nil => exact h
  | cons st rest ih => exact ih (applyUpsert_unique st.uniqueNumber st.name cid h)

/-- A row that does not have the key of an upsert is in the table after the
upsert exactly when it was before. -/
theorem mem_applyUpsert_other {s : Store} {u n : String} {cid : Int} {y : Student}
    (hy : y.hasKey u cid = false) :
    y ∈ (applyUpsert s u cid n).students ↔ y ∈ s.students := by
  cases h : s.students.any (fun st => st.hasKey u cid)
  · rw [(applyUpsert_students_absent h).1, List.mem_append, List.mem_singleton]
    constructor
    · rintro (hm | hm)
      · exact hm
      · subst hm
        simp [Student.hasKey] at hy
    · exact Or.inl
  · rw [(applyUpsert_students_present h).1, List.mem_map]
    constructor
    · rintro ⟨x, hx, hxy⟩
      by_cases hk : x.hasKey u cid = true
      · rw [if_pos hk] at hxy
        subst hxy
        rw [hasKey_iff] at hk
        simp only [Student.hasKey, hk.1, hk.2, beq_self_eq_true, Bool.and_self] at hy
        cases hy
      · rw [if_neg hk] at hxy
        subst hxy
        exact hx
    · intro hm
      exact ⟨y, hm, by rw [if_neg (by simp [hy])]⟩

theorem applyUpsert_named (s : Store) (u n : String) (cid : Int) :
    named (applyUpsert s u cid n) u cid n := by
  cases h : s.students.any (fun st => st.hasKey u cid)
  · unfold named
    rw [(applyUpsert_students_absent h).1]
    constructor
    · exact ⟨⟨s.nextStudentId, u, n, cid⟩, by simp, by simp [Student.hasKey]⟩
    · intro y hy hk
      rcases List.mem_append.1 hy with hm | hm
      · exact absurd hk (List.any_eq_false.1 h y hm)
      · rw [List.mem_singleton] at hm
        subst hm
        rfl
  · unfold named
    rw [(applyUpsert_students_present h).1]
    obtain ⟨x, hx, hxk⟩ := List.any_eq_true.1 h
    constructor
    · refine ⟨{ x with name := n }, List.mem_map.2 ⟨x, hx, by rw [if_pos hxk]⟩, ?_⟩
      simpa [Student.hasKey] using hxk
    · intro y hy hk
      obtain ⟨z, hz, hzy⟩ := List.mem_map.1 hy
      by_cases hzk : z.hasKey u cid = true
      · rw [if_pos hzk] at hzy
        subst hzy
        rfl
      · rw [if_neg hzk] at hzy
        subst hzy
        exact absurd hk hzk

theorem applyUpsert_named_other {s : Store} {u n v m : String} {cid : Int}
    (h : named s u cid n) (hne : v ≠ u) : named (applyUpsert s v cid m) u cid n := by
  have hother : ∀ y : Student, y.hasKey u cid = true → y.hasKey v cid = false := by
    intro y hy
    rw [hasKey_iff] at hy
    simp only [Student.hasKey, hy.1, hy.2, beq_self_eq_true, Bool.and_true, beq_eq_false_iff_ne]
    exact fun h => hne h.symm
  obtain ⟨⟨y, hy, hyk⟩, hall⟩ := h
  constructor
  · exact ⟨y, (mem_applyUpsert_other (hother y hyk)).2 hy, hyk⟩
  · intro z hz hzk
    exact hall z ((mem_applyUpsert_other (hother z hzk)).1 hz) hzk

/-- Upserting the name the rows already carry changes nothing. -/
theorem applyUpsert_same {s : Store} {u n : String} {cid : Int} (h : named s u cid n) :
    applyUpsert s u cid n = s := by
  obtain ⟨⟨y, hy, hyk⟩, hall⟩ := h
  have hany : s.students.any (fun st => st.hasKey u cid) = true :=
    List.any_eq_true.2 ⟨y, hy, hyk⟩
  unfold applyUpsert
  rw [if_pos hany]
  have hmap : s.students.map (fun st =>
      if st.hasKey u cid then { st with name := n } else st) = s.students := by
    conv_rhs => rw [← List.map_id s.students]
    apply List.map_congr_left
    intro st hst
    by_cases hk : st.hasKey u cid = true
    · rw [if_pos hk]
      have := hall st hst hk
      cases st
      simp only at this
      simp [this]
    · rw [if_neg hk]
      rfl
  rw [hmap]

/-- After a batch with pairwise distinct numbers, each of its students is in
the table under its name. -/
theorem applyUpserts_named (cid : Int) (l : List NewStudent) (s : Store)
    (hn : (l.map (fun st => st.uniqueNumber)).Nodup) :
    ∀ st ∈ l, named (applyUpserts cid l s) st.uniqueNumber cid st.name := by
  induction l generalizing s with
  | nil => simp
  | cons a rest ih =>
    rw [List.map_cons, List.nodup_cons] at hn
    have hkeep : ∀ (l2 : List NewStudent) (s2 : Store) (u n : String),
        u ∉ l2.map (fun st => st.uniqueNumber) → named s2 u cid n →
        named (applyUpserts cid l2 s2) u cid n := by
      intro l2
      induction l2 with
      | nil => intro s2 u n _ h; exact h
      | cons b more ih2 =>
        intro s2 u n hu h
        rw [List.map_cons, List.mem_cons, not_or] at hu
        exact ih2 _ u n hu.2 (applyUpsert_named_other h (fun e => hu.1 e.symm))
    intro st hst
    rcases List.mem_cons.1 hst with h | h
    · subst h
      exact hkeep rest _ _ _ hn.1 (applyUpsert_named s _ _ cid)
    · exact ih (applyUpsert s a.uniqueNumber cid a.name) hn.2 st h

/-- A batch whose students are all in the table under their names changes
nothing. -/
theorem applyUpserts_same (cid : Int) (l : List NewStudent) (s : Store)
    (h : ∀ st ∈ l, named s st.uniqueNumber cid st.name) : applyUpserts cid l s = s := by
  induction l with
  | nil => rfl
  | cons a rest ih =>
    simp only [applyUpserts, List.foldl_cons]
    rw [applyUpsert_same (h a (by simp))]
    exact ih (fun st hst => h st (List.mem_cons_of_mem _ hst))

/-- A batch of new, pairwise distinct numbers adds one row each to the class. -/
theorem applyUpserts_fresh (cid : Int) (l : List NewStudent) (s : Store)
    (hn : (l.map (fun st => st.uniqueNumber)).Nodup)
    (hnew : ∀ st ∈ l, ∀ x ∈ s.students, x.hasKey st.uniqueNumber cid = false) :
    ((applyUpserts cid l s).studentsOf cid).length = (s.studentsOf cid).length + l.length := by
  induction l generalizing s with
  | nil => simp [applyUpserts]
  | cons a rest ih =>
    rw [List.map_cons, List.nodup_cons] at hn
    have habs : s.students.any (fun st => st.hasKey a.uniqueNumber cid) = false :=
      List.any_eq_false.2 (fun x hx => by simp [hnew a (by simp) x hx])
    have hst := (@applyUpsert_students_absent s a.uniqueNumber a.name cid habs).1
    have hrest := ih (applyUpsert s a.uniqueNumber cid a.name) hn.2 (by
      intro st hst2 x hx
      rw [hst, List.mem_append, List.mem_singleton] at hx
      rcases hx with hx | hx
      · exact hnew st (List.mem_cons_of_mem _ hst2) x hx
      · subst hx
        simp only [Student.hasKey, Bool.and_eq_false_imp, beq_iff_eq]
        intro e
        exact absurd (List.mem_map.2 ⟨st, hst2, e.symm⟩) hn.1)
    simp only [applyUpserts, List.foldl_cons] at hrest ⊢
    rw [hrest]
    unfold Store.studentsOf
    rw [hst]
    simp [List.filter_append]
    omega

/-! ## What the import counts and whose name it keeps -/

theorem skips_eq (retained : List String) (row : CsvRow) :
    skips retained row = (!usable row || retained.contains (row.trimmedNumber.getD "")) := by
  unfold skips usable
  cases blank row.trimmedNumber <;> cases blank row.trimmedName <;> simp

theorem importLoop_numbers_mono (classId : Option Int) (pre : List CsvRow) (row : CsvRow)
    (u : String) (h : u ∈ (importLoop classId pre).uniqueNumbers) :
    u ∈ (importLoop classId (pre ++ [row])).uniqueNumbers := by
  rw [importLoop_snoc, importStep_eq]
  split
  · exact h
  · exact List.mem_append_left _ h

/-- The number of every usable row is in the set at the end of the loop. -/
theorem importLoop_covers (classId : Option Int) (rows : List CsvRow) :
    ∀ row ∈ rows, usable row = true →
      row.trimmedNumber.getD "" ∈ (importLoop classId rows).uniqueNumbers := by
  induction rows using List.reverseRecOn with
  | nil => simp
  | append_singleton pre r ih =>
    intro row hrow hus
    rcases List.mem_append.1 hrow with h | h
    · exact importLoop_numbers_mono classId pre r _ (ih row h hus)
    · rw [List.mem_singleton] at h
      subst h
      rw [importLoop_snoc, importStep_eq]
      split
      · rename_i hsk
        rw [skips_eq, hus] at hsk
        simpa using hsk
      · simp

theorem mem_importLoop_numbers (classId : Option Int) (rows : List CsvRow) (u : String) :
    u ∈ (importLoop classId rows).uniqueNumbers ↔
      u ∈ (rows.filter usable).map (fun row => row.trimmedNumber.getD "") := by
  constructor
  · intro h
    rw [importLoop_numbers, List.mem_map] at h
    obtain ⟨st, hst, rfl⟩ := h
    obtain ⟨hu, hn, _, row, hrow, hru, hrn⟩ := importLoop_mem classId rows st hst
    refine List.mem_map.2 ⟨row, List.mem_filter.2 ⟨hrow, ?_⟩, by rw [hru]; rfl⟩
    simp [usable, hru, hrn, blank, hu, hn]
  · intro h
    obtain ⟨row, hrow, rfl⟩ := List.mem_map.1 h
    rw [List.mem_filter] at hrow
    exact importLoop_covers classId rows row hrow.1 hrow.2

theorem importLoop_count (classId : Option Int) (rows : List CsvRow) :
    (importLoop classId rows).uniqueNumbers.length = distinctUsableNumbers rows := by
  unfold distinctUsableNumbers
  apply List.Perm.length_eq
  rw [List.perm_ext_iff_of_nodup (importLoop_nodup classId rows) (List.nodup_dedup _)]
  intro u
  rw [List.mem_dedup]
  exact mem_importLoop_numbers classId rows u

/-- Every retained student carries the name of the first usable row with its
number. -/
theorem importLoop_first (classId : Option Int) (rows : List CsvRow) :
    ∀ st ∈ (importLoop classId rows).studentsToCreate,
      firstUsableName rows st.uniqueNumber = some st.name := by
  induction rows using List.reverseRecOn with
  | nil => simp [importLoop]
  | append_singleton pre r ih =>
    intro st hst
    have hold : ∀ st ∈ (importLoop classId pre).studentsToCreate,
        firstUsableName (pre ++ [r]) st.uniqueNumber = some st.name := by
      intro st hst
      have h := ih st hst
      unfold firstUsableName at h ⊢
      rw [List.find?_append]
      cases hf : pre.find? (fun row => usable row && row.trimmedNumber == some st.uniqueNumber)
        with
      | none => rw [hf] at h; simp at h
      | some row => rw [hf] at h; simpa using h
    rw [importLoop_snoc, importStep_eq] at hst
    split at hst
    · exact hold st hst
    · rename_i hsk
      rcases List.mem_append.1 hst with h | h
      · exact hold st h
      · rw [List.mem_singleton] at h
        subst h
        have h1 : skips (importLoop classId pre).uniqueNumbers r = false := by simpa using hsk
        obtain ⟨u, n, hu, hn, hu0, hn0, hmem⟩ := skips_false_iff.1 h1
        simp only [hu, hn, Option.getD_some]
        have hnone : pre.find? (fun row => usable row && row.trimmedNumber == some u) = none := by
          apply List.find?_eq_none.2
          intro row hrow hp
          simp only [Bool.and_eq_true, beq_iff_eq] at hp
          have := importLoop_covers classId pre row hrow hp.1
          rw [hp.2] at this
          exact hmem this
        have hr : (usable r && r.trimmedNumber == some u) = true := by
          simp [usable, hu, hn, blank, hu0, hn0]
        unfold firstUsableName
        rw [List.find?_append, hnone]
        simp [List.find?_cons, hr, hn]

/-- C1, the counterexample: class 1 exists and has no students, the file has
three rows with three distinct `unique_number` values, and the import answers
200 with `total_users` 1 and leaves one student in the class. -/
theorem postImport_distinct_counterexample :
    oneClass.hasClass 1 = true ∧ oneClass.studentsOf 1 = [] ∧ 1 ≤ threeRows.length ∧
    distinctNumbers threeRows = 3 ∧
    (postImport oneClass "1" (.file threeRows) noFaults).2 =
      ⟨200, .usersImported "Users imported" 1⟩ ∧
    (postImport oneClass "1" (.file threeRows) noFaults).2.body.totalUsers ≠
      some (distinctNumbers threeRows) ∧
    ((postImport oneClass "1" (.file threeRows) noFaults).1.studentsOf 1).length = 1 := by
  decide

/-- C1, amended: for a class that exists and has no students, a file with at
least one row and a store that does not fail, the import answers 200 with
`total_users` equal to the number of distinct trimmed `unique_number` values
of the rows that carry both a non-empty trimmed `unique_number` and a non-empty
trimmed `name`, and afterwards the class has exactly `total_users` students. -/
theorem postImport_fresh_class (s : Store) (class_id : String) (cid : Int)
    (rows : List CsvRow) (faults : Nat → Bool)
    (hp : parseInt class_id = some cid) (hc : s.hasClass cid = true)
    (hempty : s.studentsOf cid = []) (hr : rows ≠ []) (hf : ∀ k, faults k = false) :
    (postImport s class_id (.file rows) faults).2 =
      ⟨200, .usersImported "Users imported" (distinctUsableNumbers rows)⟩ ∧
    ((postImport s class_id (.file rows) faults).1.studentsOf cid).length =
      distinctUsableNumbers rows := by
  rw [postImport_file hp (hf 0) hc hr,
    runBatch_upserts_succeeds hc (fun j _ => hf (1 + j))]
  simp only
  rw [importLoop_count]
  refine ⟨rfl, ?_⟩
  have hn : ((importLoop (some cid) rows).studentsToCreate.map
      (fun st => st.uniqueNumber)).Nodup := by
    rw [← importLoop_numbers]
    exact importLoop_nodup (some cid) rows
  rw [applyUpserts_fresh cid _ s hn, hempty, ← importLoop_count (some cid),
    importLoop_numbers, List.length_map]
  · simp
  · intro st _ x hx
    by_contra hk
    have hk : x.hasKey st.uniqueNumber cid = true := by simpa using hk
    have hmem : x ∈ s.studentsOf cid := by
      unfold Store.studentsOf
      rw [List.mem_filter]
      exact ⟨hx, by simp [((hasKey_iff x _ _).1 hk).2]⟩
    rw [hempty] at hmem
    simp at hmem

/-- The three rows imported into the empty class 1. -/
theorem postImport_fresh_class_witness :
    (parseInt "1" = some 1 ∧ oneClass.hasClass 1 = true ∧ oneClass.studentsOf 1 = [] ∧
      threeRows ≠ [] ∧ ∀ k, noFaults k = false) ∧
    (postImport oneClass "1" (.file threeRows) noFaults).2 =
      ⟨200, .usersImported "Users imported" (distinctUsableNumbers threeRows)⟩ ∧
    ((postImport oneClass "1" (.file threeRows) noFaults).1.studentsOf 1).length =
      distinctUsableNumbers threeRows :=
  ⟨⟨by decide, by decide, by decide, by decide, fun _ => rfl⟩,
    postImport_fresh_class oneClass "1" 1 threeRows noFaults (by decide) (by decide)
      (by decide) (by decide) (fun _ => rfl)⟩

/-- The store after the import of a file, whatever the response. -/
theorem postImport_store (s : Store) (class_id : String) (rows : List CsvRow)
    (faults : Nat → Bool) :
    (postImport s class_id (.file rows) faults).1 =
      match classFindUnique (faults 0) (parseInt class_id) s with
      | .ok (some _) =>
        (transaction (upserts faults (parseInt class_id) 1
          (importLoop (parseInt class_id) rows).studentsToCreate) s).1
      | _ => s := by
  unfold postImport
  simp only
  cases hfind : classFindUnique (faults 0) (parseInt class_id) s with
  | error e => rfl
  | ok found =>
    cases found with
    | none => rfl
    | some c =>
      simp only
      split
      · rename_i hlen
        have : rows = [] := by simpa using hlen
        subst this
        rfl
      · unfold transaction
        cases runBatch (upserts faults (parseInt class_id) 1
          (importLoop (parseInt class_id) rows).studentsToCreate) s <;> rfl

/-- C2, the counterexample: the first row of the file carrying the number 7
has the empty name, and the student upserted for 7 is named by the second
row, which therefore is not dropped. -/
theorem postImport_first_row_counterexample :
    firstRowName lateName "7" = some "" ∧
    (importLoop (some 1) lateName).studentsToCreate = [⟨"7", "Bob", some 1⟩] ∧
    (postImport oneClass "1" (.file lateName) noFaults).1.students = [⟨1, "7", "Bob", 1⟩] ∧
    (postImport oneClass "1" (.file lateName) noFaults).1 ≠
      (postImport oneClass "1" (.file [⟨some "7", some ""⟩]) noFaults).1 := by
  decide

/-- C2, amended: on a store with unique `(uniqueNumber, classId)` and for
an import answered 200, for every number that is the trimmed `unique_number`
of a usable row (one with a non-empty trimmed number and a non-empty trimmed name)
exactly one upsert is issued, with the trimmed name of the first usable row of
that number, and afterwards exactly one student of the class has the number,
under that name; and a row that the loop skips (unusable, or its trimmed number
retained before) has no effect on the store: the import of the file without
that row leaves the same store. -/
theorem postImport_first_usable_wins (s : Store) (class_id : String) (cid : Int)
    (rows : List CsvRow) (faults : Nat → Bool) (u n : String)
    (hu : s.uniqueStudents) (hp : parseInt class_id = some cid)
    (hok : (postImport s class_id (.file rows) faults).2.status = 200)
    (hfirst : firstUsableName rows u = some n) :
    (importLoop (some cid) rows).studentsToCreate.filter (fun st => st.uniqueNumber == u) =
      [⟨u, n, some cid⟩] ∧
    (∃ y, (postImport s class_id (.file rows) faults).1.students.filter
        (fun st => st.hasKey u cid) = [y] ∧ y.name = n) ∧
    (∀ pre row post, rows = pre ++ row :: post →
      skips (importLoop (some cid) pre).uniqueNumbers row = true →
      (postImport s class_id (.file (pre ++ post)) faults).1 =
        (postImport s class_id (.file rows) faults).1) := by
  obtain ⟨cid2, rows2, hp2, hf0, hc, hup, hr, hrun, hpost⟩ := postImport_ok hok
  have hcid : cid2 = cid := by rw [hp] at hp2; exact (Option.some.inj hp2).symm
  subst hcid
  have hrows : rows2 = rows := by injection hup with h; exact h.symm
  subst hrows
  have hn : ((importLoop (some cid2) rows2).studentsToCreate.map
      (fun st => st.uniqueNumber)).Nodup := by
    rw [← importLoop_numbers]
    exact importLoop_nodup (some cid2) rows2
  -- the retained student of the number
  have hst : ∃ st ∈ (importLoop (some cid2) rows2).studentsToCreate, st.uniqueNumber = u := by
    unfold firstUsableName at hfirst
    cases hfind : rows2.find? (fun row => usable row && row.trimmedNumber == some u) with
    | none => rw [hfind] at hfirst; simp at hfirst
    | some row =>
      have hrow := List.mem_of_find?_eq_some hfind
      have hprop := List.find?_some hfind
      simp only [Bool.and_eq_true, beq_iff_eq] at hprop
      have := importLoop_covers (some cid2) rows2 row hrow hprop.1
      rw [hprop.2, Option.getD_some, importLoop_numbers, List.mem_map] at this
      exact this
  obtain ⟨st, hstmem, hstu⟩ := hst
  have hname : st.name = n := by
    have := importLoop_first (some cid2) rows2 st hstmem
    rw [hstu, hfirst] at this
    exact (Option.some.inj this).symm
  have hclass := (importLoop_mem (some cid2) rows2 st hstmem).2.2.1
  have hsteq : st = ⟨u, n, some cid2⟩ := by
    cases st
    simp only at hstu hname hclass
    simp [hstu, hname, hclass]
  refine ⟨?_, ?_, ?_⟩
  · rw [← hsteq]
    apply filter_key_singleton (fun st : NewStudent => st.uniqueNumber) _ _ st hn hstmem
    intro y
    simp [hstu]
  · rw [hpost]
    simp only
    have hnamed := applyUpserts_named cid2 _ s hn st hstmem
    rw [hstu, hname] at hnamed
    obtain ⟨⟨y, hy, hyk⟩, hall⟩ := hnamed
    refine ⟨y, ?_, hall y hy hyk⟩
    have huniq := applyUpserts_unique cid2 (importLoop (some cid2) rows2).studentsToCreate hu
    apply filter_key_singleton (fun st : Student => (st.uniqueNumber, st.classId)) _ _ y
      huniq hy
    intro z
    rw [hasKey_iff] at hyk
    rw [hasKey_iff, hyk.1, hyk.2, Prod.mk.injEq]
  · intro pre row post hsplit hskip
    have hloop : importLoop (some cid2) (pre ++ post) = importLoop (some cid2) rows2 := by
      rw [hsplit]
      unfold importLoop
      rw [List.foldl_append, List.foldl_append, List.foldl_cons]
      have := @importStep_skip (some cid2) _ _ hskip
      unfold importLoop at this
      rw [this]
    rw [postImport_store, postImport_store, hp, hloop]

/-- The file `lateName` imported into the empty class 1: the usable row names
student 7, and the import without the unusable first row leaves the same store. -/
theorem postImport_first_usable_wins_witness :
    (oneClass.uniqueStudents ∧ parseInt "1" = some 1 ∧
      (postImport oneClass "1" (.file lateName) noFaults).2.status = 200 ∧
      firstUsableName lateName "7" = some "Bob") ∧
    (importLoop (some 1) lateName).studentsToCreate.filter
        (fun st => st.uniqueNumber == "7") = [⟨"7", "Bob", some 1⟩] ∧
    (∃ y, (postImport oneClass "1" (.file lateName) noFaults).1.students.filter
        (fun st => st.hasKey "7" 1) = [y] ∧ y.name = "Bob") :=
  ⟨⟨by unfold Store.uniqueStudents; decide, by decide, by decide, by decide⟩,
    (postImport_first_usable_wins oneClass "1" 1 lateName noFaults "7" "Bob"
      (by unfold Store.uniqueStudents; decide) (by decide) (by decide) (by decide)).1,
    (postImport_first_usable_wins oneClass "1" 1 lateName noFaults "7" "Bob"
      (by unfold Store.uniqueStudents; decide) (by decide) (by decide) (by decide)).2.1⟩

/-! ## Importing the same file again -/

/-- C3: the import is idempotent. On a store with unique `(uniqueNumber,
classId)`, after an import answered 200, the same import again on a store that
does not fail gives the same response, so the same `total_users`, and leaves
the store as the first import left it, so the number of students is unchanged;
the store is left so even when the second import fails; and every student of
the file is in the class exactly once, under the name the file gives it. -/
theorem postImport_idempotent (s : Store) (class_id : String) (upload : Upload)
    (faults1 faults2 : Nat → Bool) (hu : s.uniqueStudents)
    (hok : (postImport s class_id upload faults1).2.status = 200)
    (hf2 : ∀ k, faults2 k = false) :
    postImport (postImport s class_id upload faults1).1 class_id upload faults2 =
      postImport s class_id upload faults1 ∧
    (postImport (postImport s class_id upload faults1).1 class_id upload faults2).1.students.length
      = (postImport s class_id upload faults1).1.students.length ∧
    (∀ faults3 : Nat → Bool,
      (postImport (postImport s class_id upload faults1).1 class_id upload faults3).1 =
        (postImport s class_id upload faults1).1) ∧
    (∀ cid rows, parseInt class_id = some cid → upload = .file rows →
      ∀ st ∈ (importLoop (some cid) rows).studentsToCreate,
        ∃ y, (postImport s class_id upload faults1).1.students.filter
          (fun x => x.hasKey st.uniqueNumber cid) = [y] ∧ y.name = st.name) := by
  obtain ⟨cid, rows, hp, hf0, hc, hup, hr, hrun, hpost⟩ := postImport_ok hok
  subst hup
  have hn : ((importLoop (some cid) rows).studentsToCreate.map
      (fun st => st.uniqueNumber)).Nodup := by
    rw [← importLoop_numbers]
    exact importLoop_nodup (some cid) rows
  have hnamed := applyUpserts_named cid _ s hn
  have hsame := applyUpserts_same cid _ _ hnamed
  have hc1 : (applyUpserts cid (importLoop (some cid) rows).studentsToCreate s).hasClass cid
      = true := by
    rw [applyUpserts_hasClass]; exact hc
  have hagain : ∀ faults3 : Nat → Bool,
      (postImport (postImport s class_id (.file rows) faults1).1 class_id (.file rows)
        faults3).1 = (postImport s class_id (.file rows) faults1).1 := by
    intro faults3
    by_cases h3 : (postImport (postImport s class_id (.file rows) faults1).1 class_id
        (.file rows) faults3).2.status = 200
    · obtain ⟨cid3, rows3, hp3, _, _, hup3, _, _, hpost3⟩ := postImport_ok h3
      have : cid3 = cid := by rw [hp] at hp3; exact (Option.some.inj hp3).symm
      subst this
      have : rows3 = rows := by injection hup3 with h; exact h.symm
      subst this
      rw [hpost3, hpost]
      exact hsame
    · exact postImport_not_ok _ _ _ _ h3
  have hsecond : postImport (postImport s class_id (.file rows) faults1).1 class_id
      (.file rows) faults2 = postImport s class_id (.file rows) faults1 := by
    rw [hpost]
    simp only
    rw [postImport_file hp (hf2 0) hc1 hr,
      runBatch_upserts_succeeds hc1 (fun j _ => hf2 (1 + j))]
    simp only
    rw [hsame]
  refine ⟨hsecond, by rw [hsecond], hagain, ?_⟩
  intro cid4 rows4 hp4 hup4 st hst
  have : cid4 = cid := by rw [hp] at hp4; exact (Option.some.inj hp4).symm
  subst this
  have : rows4 = rows := by injection hup4 with h; exact h.symm
  subst this
  rw [hpost]
  simp only
  obtain ⟨⟨y, hy, hyk⟩, hall⟩ := hnamed st hst
  refine ⟨y, ?_, hall y hy hyk⟩
  have huniq := applyUpserts_unique cid4 (importLoop (some cid4) rows4).studentsToCreate hu
  apply filter_key_singleton (fun st : Student => (st.uniqueNumber, st.classId)) _ _ y
    huniq hy
  intro z
  rw [hasKey_iff] at hyk
  rw [hasKey_iff, hyk.1, hyk.2, Prod.mk.injEq]

/-- The file `twoRows` imported twice into class 1, where student 1 was there
before under another name. -/
theorem postImport_idempotent_witness :
    ((⟨[⟨1, "Math"⟩], [⟨1, "1", "Anna", 1⟩], [], 2, 2, 1⟩ : Store).uniqueStudents ∧
      (postImport ⟨[⟨1, "Math"⟩], [⟨1, "1", "Anna", 1⟩], [], 2, 2, 1⟩ "1" (.file twoRows)
        noFaults).2.status = 200 ∧ ∀ k, noFaults k = false) ∧
    postImport (postImport ⟨[⟨1, "Math"⟩], [⟨1, "1", "Anna", 1⟩], [], 2, 2, 1⟩ "1"
        (.file twoRows) noFaults).1 "1" (.file twoRows) noFaults =
      postImport ⟨[⟨1, "Math"⟩], [⟨1, "1", "Anna", 1⟩], [], 2, 2, 1⟩ "1" (.file twoRows)
        noFaults :=
  ⟨⟨by unfold Store.uniqueStudents; decide, by decide, fun _ => rfl⟩,
    (postImport_idempotent ⟨[⟨1, "Math"⟩], [⟨1, "1", "Anna", 1⟩], [], 2, 2, 1⟩ "1"
      (.file twoRows) noFaults noFaults (by unfold Store.uniqueStudents; decide) (by decide)
      (fun _ => rfl)).1⟩

/-! ## What marking does to the attendance table -/

theorem attendance_hasKey_iff (a : Attendance) (i : Int) (d : String) :
    a.hasKey i d = true ↔ a.studentId = i ∧ a.date = d := by
  simp [Attendance.hasKey]

theorem attendanceUpsert_ok {fault : Bool} {i : Int} {d st : String} {s s1 : Store}
    (h : attendanceUpsert fault i d st s = .ok s1) :
    fault = false ∧ s1 = applyAttendance s i d st := by
  unfold attendanceUpsert at h
  unfold applyAttendance
  cases fault
  · simp only [Bool.false_eq_true, if_false] at h
    split at h
    · rename_i hk
      simp only [Except.ok.injEq] at h
      rw [if_pos hk]
      exact ⟨rfl, h.symm⟩
    · rename_i hk
      split at h
      · simp only [Except.ok.injEq] at h
        rw [if_neg hk]
        exact ⟨rfl, h.symm⟩
      · cases h
  · simp at h

theorem attendanceUpsert_succeeds {i : Int} {d st : String} {s : Store}
    (h : s.students.any (fun x => x.id == i) = true) :
    attendanceUpsert false i d st s = .ok (applyAttendance s i d st) := by
  unfold attendanceUpsert applyAttendance
  simp only [Bool.false_eq_true, if_false]
  rw [if_pos h]
  split <;> rfl

theorem applyAttendance_students (s : Store) (i : Int) (d st : String) :
    (applyAttendance s i d st).students = s.students ∧
    (applyAttendance s i d st).classes = s.classes ∧
    (applyAttendance s i d st).nextStudentId = s.nextStudentId ∧
    (applyAttendance s i d st).nextClassId = s.nextClassId := by
  unfold applyAttendance
  split <;> simp

/-- After the upsert there is a row with the key, and the rows with the key
carry the status. -/
theorem applyAttendance_marked (s : Store) (i : Int) (d st : String) :
    (∃ a ∈ (applyAttendance s i d st).attendances, a.hasKey i d = true) ∧
    ∀ a ∈ (applyAttendance s i d st).attendances, a.hasKey i d = true → a.status = st := by
  unfold applyAttendance
  split
  · rename_i h
    obtain ⟨x, hx, hxk⟩ := List.any_eq_true.1 h
    constructor
    · refine ⟨{ x with status := st }, List.mem_map.2 ⟨x, hx, by rw [if_pos hxk]⟩, ?_⟩
      simpa [Attendance.hasKey] using hxk
    · intro a ha hk
      obtain ⟨z, hz, hza⟩ := List.mem_map.1 ha
      by_cases hzk : z.hasKey i d = true
      · rw [if_pos hzk] at hza
        subst hza
        rfl
      · rw [if_neg hzk] at hza
        subst hza
        exact absurd hk hzk
  · rename_i h
    constructor
    · exact ⟨⟨s.nextAttendanceId, i, d, st⟩, by simp, by simp [Attendance.hasKey]⟩
    · intro a ha hk
      simp only [List.mem_append, List.mem_singleton] at ha
      rcases ha with hm | hm
      · exact absurd (List.any_eq_true.2 ⟨a, hm, hk⟩) h
      · subst hm
        rfl

/-- Upserting the status the rows of the key already carry changes nothing. -/
theorem applyAttendance_same {s : Store} {i : Int} {d st : String}
    (hex : ∃ a ∈ s.attendances, a.hasKey i d = true)
    (hall : ∀ a ∈ s.attendances, a.hasKey i d = true → a.status = st) :
    applyAttendance s i d st = s := by
  obtain ⟨y, hy, hyk⟩ := hex
  have hany : s.attendances.any (fun a => a.hasKey i d) = true :=
    List.any_eq_true.2 ⟨y, hy, hyk⟩
  unfold applyAttendance
  rw [if_pos hany]
  have hmap : s.attendances.map (fun a =>
      if a.hasKey i d then { a with status := st } else a) = s.attendances := by
    conv_rhs => rw [← List.map_id s.attendances]
    apply List.map_congr_left
    intro a ha
    by_cases hk : a.hasKey i d = true
    · rw [if_pos hk]
      have := hall a ha hk
      cases a
      simp only at this
      simp [this]
    · rw [if_neg hk]
      rfl
  rw [hmap]

theorem applyAttendance_unique {s : Store} (i : Int) (d st : String)
    (h : s.uniqueAttendance) : (applyAttendance s i d st).uniqueAttendance := by
  unfold Store.uniqueAttendance at h ⊢
  unfold applyAttendance
  split
  · simp only [List.map_map]
    have : ((fun a : Attendance => (a.studentId, a.date)) ∘ fun a : Attendance =>
        if a.hasKey i d = true then { a with status := st } else a) =
        fun a : Attendance => (a.studentId, a.date) := by
      funext a
      simp only [Function.comp]
      split <;> rfl
    rw [this]
    exact h
  · rename_i hany
    simp only [List.map_append, List.map_cons, List.map_nil]
    apply List.Nodup.append h (List.nodup_singleton _)
    intro k ha hb
    rw [List.mem_singleton] at hb
    subst hb
    obtain ⟨a, hmem, heq⟩ := List.mem_map.1 ha
    apply hany
    apply List.any_eq_true.2
    refine ⟨a, hmem, ?_⟩
    rw [attendance_hasKey_iff]
    exact ⟨congrArg Prod.fst heq, congrArg Prod.snd heq⟩

/-- The attendance looked up by the list handlers, after a mark. -/
theorem hasAttendance_applyAttendance (s : Store) (i j : Int) (d e st : String) :
    hasAttendance (applyAttendance s i d st) j e st =
      (hasAttendance s j e st || (j == i && e == d)) := by
  unfold hasAttendance applyAttendance
  split
  · rename_i h
    obtain ⟨x, hx, hxk⟩ := List.any_eq_true.1 h
    rw [attendance_hasKey_iff] at hxk
    simp only [List.any_map]
    rw [Bool.eq_iff_iff]
    simp only [List.any_eq_true, Function.comp, Bool.or_eq_true, Bool.and_eq_true, beq_iff_eq]
    constructor
    · rintro ⟨a, ha, hcond⟩
      by_cases hk : a.hasKey i d = true
      · rw [if_pos hk] at hcond
        rw [attendance_hasKey_iff] at hk
        simp only at hcond
        right
        exact ⟨by rw [← hcond.1.1, hk.1], by rw [← hcond.1.2, hk.2]⟩
      · rw [if_neg hk] at hcond
        left
        exact ⟨a, ha, hcond⟩
    · rintro (⟨a, ha, hcond⟩ | ⟨hj, he⟩)
      · refine ⟨a, ha, ?_⟩
        by_cases hk : a.hasKey i d = true
        · rw [if_pos hk]
          exact ⟨hcond.1, rfl⟩
        · rw [if_neg hk]
          exact hcond
      · refine ⟨x, hx, ?_⟩
        rw [if_pos ((attendance_hasKey_iff x i d).2 hxk)]
        simp [hxk, hj, he]
  · simp only [List.any_append, List.any_cons, List.any_nil, Bool.or_false, beq_self_eq_true,
      Bool.and_true]
    congr 1
    rw [Bool.eq_iff_iff]
    simp only [Bool.and_eq_true, beq_iff_eq]
    exact ⟨fun h => ⟨h.1.symm, h.2.symm⟩, fun h => ⟨h.1.symm, h.2.symm⟩⟩

/-! ## The attendance handler, case by case -/

/-- What a 200 from the attendance handler tells. -/
theorem postAttendance_ok {s : Store} {class_id : String} {body : Option JsonField}
    {today : String} {faults : Nat → Bool}
    (h : (postAttendance s class_id body today faults).2.status = 200) :
    ∃ u cid student, body = some (.str u) ∧ u ≠ "" ∧ parseInt class_id = some cid ∧
      faults 0 = false ∧ faults 1 = false ∧
      s.students.find? (fun st => st.hasKey u cid) = some student ∧
      postAttendance s class_id body today faults =
        (applyAttendance s student.id today "Present",
          ⟨200, .attendanceUpdated "Attendance updated" (.str u) "Present"⟩) := by
  have h0 := h
  unfold postAttendance at h
  simp only at h
  split at h
  · simp at h
  · rename_i v
    split at h
    · simp at h
    · rename_i htr
      split at h
      · simp at h
      · simp at h
      · rename_i student hfind
        split at h
        · simp at h
        · rename_i s1 hups
          obtain ⟨hf1, hs1⟩ := attendanceUpsert_ok hups
          unfold studentFindUnique at hfind
          cases hf0 : faults 0
          · rw [hf0] at hfind
            simp only [Bool.false_eq_true, if_false] at hfind
            cases v with
            | str u =>
              cases hp : parseInt class_id with
              | none => rw [hp] at hfind; cases hfind
              | some cid =>
                rw [hp] at hfind
                simp only [Except.ok.injEq] at hfind
                have hu : u ≠ "" := by
                  simpa [JsonField.truthy] using htr
                refine ⟨u, cid, student, rfl, hu, rfl, rfl, hf1, hfind, ?_⟩
                unfold postAttendance studentFindUnique
                simp only [hp, hf0, hfind, Bool.false_eq_true, if_false]
                have ht : (JsonField.str u).truthy = true := by
                  simpa [JsonField.truthy] using hu
                simp only [ht, Bool.not_true, Bool.false_eq_true, if_false, hups, hs1]
            | otherFalsy => cases hfind
            | otherTruthy => cases hfind
          · rw [hf0] at hfind
            simp at hfind

/-- Whatever the attendance handler answers other than 200, it leaves the
store as it was. -/
theorem postAttendance_not_ok (s : Store) (class_id : String) (body : Option JsonField)
    (today : String) (faults : Nat → Bool)
    (h : (postAttendance s class_id body today faults).2.status ≠ 200) :
    (postAttendance s class_id body today faults).1 = s := by
  unfold postAttendance at h ⊢
  simp only at h ⊢
  split
  · rfl
  · split
    · rfl
    · split
      · rfl
      · rfl
      · rename_i hfind
        split
        · rfl
        · rename_i s1 hups
          simp_all

/-- A student that is found and a store that does not fail give a 200. -/
theorem postAttendance_found {s : Store} {class_id : String} {u : String} {cid : Int}
    {student : Student} {today : String} {faults : Nat → Bool}
    (hu : u ≠ "") (hp : parseInt class_id = some cid) (hf0 : faults 0 = false)
    (hf1 : faults 1 = false)
    (hfind : s.students.find? (fun st => st.hasKey u cid) = some student) :
    postAttendance s class_id (some (.str u)) today faults =
      (applyAttendance s student.id today "Present",
        ⟨200, .attendanceUpdated "Attendance updated" (.str u) "Present"⟩) := by
  have ht : (JsonField.str u).truthy = true := by simpa [JsonField.truthy] using hu
  have hany : s.students.any (fun x => x.id == student.id) = true :=
    List.any_eq_true.2 ⟨student, List.mem_of_find?_eq_some hfind, by simp⟩
  unfold postAttendance studentFindUnique
  simp only [hp, hf0, hf1, hfind, ht, Bool.not_true, Bool.false_eq_true, if_false,
    attendanceUpsert_succeeds hany]

/-! ## Marking twice -/

/-- C5: on a store with at most one attendance row per `(studentId, date)`,
after a mark answered 200 (so for a student found by `unique_number` and
`class_id`), the same mark again on the same date is answered 200 when the
store does not fail and leaves the store as the first mark left it, whether it
fails or not; in that store the student has exactly one attendance row for the
date, with status `Present`. -/
theorem postAttendance_twice (s : Store) (class_id : String) (body : Option JsonField)
    (today : String) (faults1 faults2 : Nat → Bool) (hu : s.uniqueAttendance)
    (hok : (postAttendance s class_id body today faults1).2.status = 200)
    (hf2 : faults2 0 = false ∧ faults2 1 = false) :
    (postAttendance (postAttendance s class_id body today faults1).1 class_id body today
      faults2).2.status = 200 ∧
    (∀ faults3 : Nat → Bool,
      (postAttendance (postAttendance s class_id body today faults1).1 class_id body today
        faults3).1 = (postAttendance s class_id body today faults1).1) ∧
    ∃ u cid student, body = some (.str u) ∧ parseInt class_id = some cid ∧
      s.students.find? (fun st => st.hasKey u cid) = some student ∧
      ∃ a, (postAttendance (postAttendance s class_id body today faults1).1 class_id body
          today faults2).1.attendances.filter (fun a => a.hasKey student.id today) = [a] ∧
        a.status = "Present" := by
  obtain ⟨u, cid, student, hbody, hu0, hp, hf0, hf1, hfind, hpost⟩ := postAttendance_ok hok
  subst hbody
  have hmarked := applyAttendance_marked s student.id today "Present"
  have hsame := applyAttendance_same hmarked.1 hmarked.2
  have hfind1 : (applyAttendance s student.id today "Present").students.find?
      (fun st => st.hasKey u cid) = some student := by
    rw [(applyAttendance_students s student.id today "Present").1]
    exact hfind
  have hagain : ∀ faults3 : Nat → Bool,
      (postAttendance (postAttendance s class_id (some (.str u)) today faults1).1 class_id
        (some (.str u)) today faults3).1 =
        (postAttendance s class_id (some (.str u)) today faults1).1 := by
    intro faults3
    by_cases h3 : (postAttendance (postAttendance s class_id (some (.str u)) today faults1).1
        class_id (some (.str u)) today faults3).2.status = 200
    · obtain ⟨u3, cid3, student3, hbody3, _, hp3, _, _, hfind3, hpost3⟩ := postAttendance_ok h3
      have : u3 = u := by
        injection hbody3 with h
        injection h with h
        exact h.symm
      subst this
      have : cid3 = cid := by rw [hp] at hp3; exact (Option.some.inj hp3).symm
      subst this
      rw [hpost] at hfind3
      simp only at hfind3
      rw [hfind1] at hfind3
      have : student3 = student := (Option.some.inj hfind3).symm
      subst this
      rw [hpost3, hpost]
      simp only
      exact hsame
    · exact postAttendance_not_ok _ _ _ _ _ h3
  have hsecond := @postAttendance_found _ _ _ _ _ today _ hu0 hp hf2.1 hf2.2 hfind1
  rw [hsame] at hsecond
  refine ⟨?_, hagain, u, cid, student, rfl, hp, hfind, ?_⟩
  · rw [hpost]
    simp only
    rw [hsecond]
  · rw [hagain faults2, hpost]
    simp only
    obtain ⟨⟨a, ha, hak⟩, hall⟩ := hmarked
    refine ⟨a, ?_, hall a ha hak⟩
    have huniq := applyAttendance_unique student.id today "Present" hu
    apply filter_key_singleton (fun a : Attendance => (a.studentId, a.date)) _ _ a huniq ha
    intro z
    rw [attendance_hasKey_iff] at hak
    rw [attendance_hasKey_iff, hak.1, hak.2, Prod.mk.injEq]

/-- Student 1 of class 1 marked twice on the same day, where an attendance
row of that day with another status was there before. -/
theorem postAttendance_twice_witness :
    ((⟨[⟨1, "Math"⟩], [⟨1, "1", "Ann", 1⟩], [⟨1, 1, "2024-05-06", "Late"⟩], 2, 2, 2⟩ :
        Store).uniqueAttendance ∧
      (postAttendance ⟨[⟨1, "Math"⟩], [⟨1, "1", "Ann", 1⟩], [⟨1, 1, "2024-05-06", "Late"⟩],
        2, 2, 2⟩ "1" (some (.str "1")) "2024-05-06" noFaults).2.status = 200 ∧
      (noFaults 0 = false ∧ noFaults 1 = false)) ∧
    (postAttendance (postAttendance ⟨[⟨1, "Math"⟩], [⟨1, "1", "Ann", 1⟩],
        [⟨1, 1, "2024-05-06", "Late"⟩], 2, 2, 2⟩ "1" (some (.str "1")) "2024-05-06"
        noFaults).1 "1" (some (.str "1")) "2024-05-06" noFaults).2.status = 200 :=
  ⟨⟨by unfold Store.uniqueAttendance; decide, by decide, by decide⟩,
    (postAttendance_twice ⟨[⟨1, "Math"⟩], [⟨1, "1", "Ann", 1⟩],
      [⟨1, 1, "2024-05-06", "Late"⟩], 2, 2, 2⟩ "1" (some (.str "1")) "2024-05-06" noFaults
      noFaults (by unfold Store.uniqueAttendance; decide) (by decide) (by decide)).1⟩

/-! ## Present and absent -/

/-- The two list handlers for a class that is found, on a store that does not
fail. -/
theorem getPresent_getAbsent_found {s : Store} {class_id : String} {cid : Int}
    (dateParam : Option String) (today : String) {faults : Nat → Bool}
    (hp : parseInt class_id = some cid) (hc : s.hasClass cid = true)
    (hf0 : faults 0 = false) (hf1 : faults 1 = false) :
    getPresent s class_id dateParam today faults =
      ⟨200, .present (some cid) (dateOrToday dateParam today)
        ((s.students.filter (fun st => st.classId == cid &&
          hasAttendance s st.id (dateOrToday dateParam today) "Present")).map listed)⟩ ∧
    getAbsent s class_id dateParam today faults =
      ⟨200, .absent (some cid) (dateOrToday dateParam today)
        ((s.students.filter (fun st => st.classId == cid &&
          !hasAttendance s st.id (dateOrToday dateParam today) "Present")).map listed)⟩ := by
  obtain ⟨c, hfind⟩ := classFindUnique_hasClass hc
  constructor
  · unfold getPresent studentFindMany
    simp only [hp, hf0, hf1, hfind, Bool.false_eq_true, if_false]
  · unfold getAbsent studentFindMany
    simp only [hp, hf0, hf1, hfind, Bool.false_eq_true, if_false]

/-- C9: for a class that exists and a store that does not fail, whatever
attendance rows and statuses the store holds, the rows behind the present list
and the rows behind the absent list of a date partition the students of the
class: together they are the students of the class, each as often as it is in
the table, no row is behind both lists, and every row is of the class. Where
`(uniqueNumber, classId)` is unique, no entry is on both lists returned. -/
theorem present_absent_partition (s : Store) (class_id : String) (cid : Int)
    (dateParam : Option String) (today : String) (faults : Nat → Bool)
    (hp : parseInt class_id = some cid) (hc : s.hasClass cid = true)
    (hf0 : faults 0 = false) (hf1 : faults 1 = false) :
    ∃ presentStudents absentStudents : List Student,
      studentFindMany (faults 1) (parseInt class_id) .some (dateOrToday dateParam today)
        "Present" s = .ok presentStudents ∧
      studentFindMany (faults 1) (parseInt class_id) .none (dateOrToday dateParam today)
        "Present" s = .ok absentStudents ∧
      getPresent s class_id dateParam today faults =
        ⟨200, .present (some cid) (dateOrToday dateParam today)
          (presentStudents.map listed)⟩ ∧
      getAbsent s class_id dateParam today faults =
        ⟨200, .absent (some cid) (dateOrToday dateParam today)
          (absentStudents.map listed)⟩ ∧
      List.Perm (presentStudents ++ absentStudents) (s.studentsOf cid) ∧
      (∀ st ∈ presentStudents, st ∉ absentStudents) ∧
      (∀ st ∈ presentStudents ++ absentStudents, st.classId = cid) ∧
      (s.uniqueStudents → ∀ e ∈ presentStudents.map listed, e ∉ absentStudents.map listed) := by
  obtain ⟨hpres, habs⟩ := getPresent_getAbsent_found dateParam today hp hc hf0 hf1
  refine ⟨_, _, ?_, ?_, hpres, habs, ?_, ?_, ?_, ?_⟩
  · unfold studentFindMany
    simp only [hp, hf1, Bool.false_eq_true, if_false]
  · unfold studentFindMany
    simp only [hp, hf1, Bool.false_eq_true, if_false]
  · unfold Store.studentsOf
    have e1 : s.students.filter (fun st => st.classId == cid &&
        hasAttendance s st.id (dateOrToday dateParam today) "Present") =
        (s.students.filter (fun st => st.classId == cid)).filter
          (fun st => hasAttendance s st.id (dateOrToday dateParam today) "Present") := by
      rw [List.filter_filter]
      apply List.filter_congr
      intro x _
      exact Bool.and_comm _ _
    have e2 : s.students.filter (fun st => st.classId == cid &&
        !hasAttendance s st.id (dateOrToday dateParam today) "Present") =
        (s.students.filter (fun st => st.classId == cid)).filter
          (fun st => !hasAttendance s st.id (dateOrToday dateParam today) "Present") := by
      rw [List.filter_filter]
      apply List.filter_congr
      intro x _
      exact Bool.and_comm _ _
    rw [e1, e2]
    have := List.filter_append_perm
      (fun st : Student => hasAttendance s st.id (dateOrToday dateParam today) "Present")
      (s.students.filter (fun st => st.classId == cid))
    simpa using this
  · intro st h1 h2
    rw [List.mem_filter] at h1 h2
    simp only [Bool.and_eq_true, Bool.not_eq_true'] at h1 h2
    rw [h1.2.2] at h2
    exact Bool.noConfusion h2.2.2
  · intro st h
    rw [List.mem_append, List.mem_filter, List.mem_filter] at h
    simp only [Bool.and_eq_true, beq_iff_eq] at h
    rcases h with h | h <;> exact h.2.1
  · intro huniq e h1 h2
    obtain ⟨x, hx, hxe⟩ := List.mem_map.1 h1
    obtain ⟨y, hy, hye⟩ := List.mem_map.1 h2
    rw [List.mem_filter] at hx hy
    simp only [Bool.and_eq_true, Bool.not_eq_true', beq_iff_eq] at hx hy
    have hkey : (fun st : Student => (st.uniqueNumber, st.classId)) x =
        (fun st : Student => (st.uniqueNumber, st.classId)) y := by
      have := hxe.trans hye.symm
      unfold listed at this
      simp only [Listed.mk.injEq] at this
      simp [this.1, hx.2.1, hy.2.1]
    have hxy : x = y := List.inj_on_of_nodup_map huniq hx.1 hy.1 hkey
    subst hxy
    rw [hx.2.2] at hy
    exact Bool.noConfusion hy.2.2

/-- Class 1 with two students, one of them with an attendance row whose
status is not `Present`. -/
theorem present_absent_partition_witness :
    (parseInt "1" = some 1 ∧
      (⟨[⟨1, "Math"⟩], [⟨1, "1", "Ann", 1⟩, ⟨2, "2", "Bob", 1⟩],
        [⟨1, 1, "2024-05-06", "Late"⟩, ⟨2, 2, "2024-05-06", "Present"⟩], 2, 3, 3⟩ :
          Store).hasClass 1 = true ∧ noFaults 0 = false ∧ noFaults 1 = false) ∧
    ∃ presentStudents absentStudents : List Student,
      studentFindMany (noFaults 1) (parseInt "1") .some (dateOrToday none "2024-05-06")
        "Present" ⟨[⟨1, "Math"⟩], [⟨1, "1", "Ann", 1⟩, ⟨2, "2", "Bob", 1⟩],
        [⟨1, 1, "2024-05-06", "Late"⟩, ⟨2, 2, "2024-05-06", "Present"⟩], 2, 3, 3⟩ =
          .ok presentStudents ∧
      studentFindMany (noFaults 1) (parseInt "1") .none (dateOrToday none "2024-05-06")
        "Present" ⟨[⟨1, "Math"⟩], [⟨1, "1", "Ann", 1⟩, ⟨2, "2", "Bob", 1⟩],
        [⟨1, 1, "2024-05-06", "Late"⟩, ⟨2, 2, "2024-05-06", "Present"⟩], 2, 3, 3⟩ =
          .ok absentStudents ∧
      List.Perm (presentStudents ++ absentStudents)
        ((⟨[⟨1, "Math"⟩], [⟨1, "1", "Ann", 1⟩, ⟨2, "2", "Bob", 1⟩],
        [⟨1, 1, "2024-05-06", "Late"⟩, ⟨2, 2, "2024-05-06", "Present"⟩], 2, 3, 3⟩ :
          Store).studentsOf 1) := by
  refine ⟨⟨by decide, by decide, by decide, by decide⟩, ?_⟩
  obtain ⟨p, a, h1, h2, _, _, h5, _⟩ := present_absent_partition
    ⟨[⟨1, "Math"⟩], [⟨1, "1", "Ann", 1⟩, ⟨2, "2", "Bob", 1⟩],
      [⟨1, 1, "2024-05-06", "Late"⟩, ⟨2, 2, "2024-05-06", "Present"⟩], 2, 3, 3⟩
    "1" 1 none "2024-05-06" noFaults (by decide) (by decide) (by decide) (by decide)
  exact ⟨p, a, h1, h2, h5⟩

/-! ## Runs of requests -/

theorem applyUpsert_WF {s : Store} (u n : String) (cid : Int) (h : s.WF) :
    (applyUpsert s u cid n).WF := by
  refine ⟨?_, applyUpsert_unique u n cid h.keys, ?_⟩
  · cases hany : s.students.any (fun st => st.hasKey u cid)
    · rw [(applyUpsert_students_absent hany).1]
      simp only [List.map_append, List.map_cons, List.map_nil]
      apply List.Nodup.append h.ids (List.nodup_singleton _)
      intro i hi hi2
      rw [List.mem_singleton] at hi2
      subst hi2
      obtain ⟨st, hst, he⟩ := List.mem_map.1 hi
      have := h.below st hst
      omega
    · rw [(applyUpsert_students_present hany).1, List.map_map]
      have : ((fun st : Student => st.id) ∘ fun st : Student =>
          if st.hasKey u cid = true then { st with name := n } else st) =
          fun st : Student => st.id := by
        funext st
        simp only [Function.comp]
        split <;> rfl
      rw [this]
      exact h.ids
  · intro st hst
    cases hany : s.students.any (fun st => st.hasKey u cid)
    · rw [(applyUpsert_students_absent hany).1] at hst
      rw [(applyUpsert_students_absent hany).2]
      rcases List.mem_append.1 hst with hm | hm
      · have := h.below st hm
        omega
      · rw [List.mem_singleton] at hm
        subst hm
        simp
    · rw [(applyUpsert_students_present hany).1] at hst
      rw [(applyUpsert_students_present hany).2]
      obtain ⟨x, hx, hxe⟩ := List.mem_map.1 hst
      have := h.below x hx
      by_cases hk : x.hasKey u cid = true
      · rw [if_pos hk] at hxe
        subst hxe
        exact this
      · rw [if_neg hk] at hxe
        subst hxe
        exact this

theorem applyUpsert_persist (s : Store) (u n : String) (cid : Int) :
    ∀ x ∈ s.students, ∃ y ∈ (applyUpsert s u cid n).students,
      y.id = x.id ∧ y.uniqueNumber = x.uniqueNumber ∧ y.classId = x.classId := by
  intro x hx
  have hk := applyUpsert_keys s u n cid
  have hmem : (x.id, x.uniqueNumber, x.classId) ∈
      (applyUpsert s u cid n).students.map (fun st => (st.id, st.uniqueNumber, st.classId)) := by
    rw [hk]
    exact List.mem_append_left _ (List.mem_map.2 ⟨x, hx, rfl⟩)
  obtain ⟨y, hy, he⟩ := List.mem_map.1 hmem
  simp only [Prod.mk.injEq] at he
  exact ⟨y, hy, he.1, he.2.1, he.2.2⟩

theorem applyUpserts_WF {s : Store} (cid : Int) (l : List NewStudent) (h : s.WF) :
    (applyUpserts cid l s).WF := by
  induction l generalizing s with
  | nil => exact h
  | cons st rest ih => exact ih (applyUpsert_WF st.uniqueNumber st.name cid h)

theorem applyUpserts_persist (cid : Int) (l : List NewStudent) (s : Store) :
    ∀ x ∈ s.students, ∃ y ∈ (applyUpserts cid l s).students,
      y.id = x.id ∧ y.uniqueNumber = x.uniqueNumber ∧ y.classId = x.classId := by
  induction l generalizing s with
  | nil => intro x hx; exact ⟨x, hx, rfl, rfl, rfl⟩
  | cons st rest ih =>
    intro x hx
    obtain ⟨y, hy, h1, h2, h3⟩ := applyUpsert_persist s st.uniqueNumber st.name cid x hx
    obtain ⟨z, hz, g1, g2, g3⟩ := ih (applyUpsert s st.uniqueNumber cid st.name) y hy
    exact ⟨z, hz, g1.trans h1, g2.trans h2, g3.trans h3⟩

theorem hasAttendance_congr {s s1 : Store} (h : s1.attendances = s.attendances) (i : Int)
    (d st : String) : hasAttendance s1 i d st = hasAttendance s i d st := by
  unfold hasAttendance
  rw [h]

/-- The store after an import: as before, or after a batch of upserts. -/
theorem postImport_store_cases (s : Store) (class_id : String) (upload : Upload)
    (faults : Nat → Bool) :
    (postImport s class_id upload faults).1 = s ∨
      ∃ cid l, (postImport s class_id upload faults).1 = applyUpserts cid l s := by
  by_cases h : (postImport s class_id upload faults).2.status = 200
  · obtain ⟨cid, rows, _, _, _, _, _, _, hpost⟩ := postImport_ok h
    exact Or.inr ⟨cid, _, by rw [hpost]⟩
  · exact Or.inl (postImport_not_ok s class_id upload faults h)

theorem postClasses_students (s : Store) (body : Option JsonField) (faults : Nat → Bool) :
    (postClasses s body faults).1.students = s.students ∧
    (postClasses s body faults).1.attendances = s.attendances ∧
    (postClasses s body faults).1.nextStudentId = s.nextStudentId := by
  unfold postClasses classCreate
  cases body with
  | none => simp
  | some v =>
    cases v with
    | str n =>
      by_cases hn : n = ""
      · simp [JsonField.truthy, hn]
      · cases hf : faults 0 <;> simp [JsonField.truthy, hn, hf]
    | otherFalsy => simp [JsonField.truthy]
    | otherTruthy => cases hf : faults 0 <;> simp [JsonField.truthy, hf]

/-- The store after a mark: as before, or with the attendance of a student
of the table upserted. -/
theorem postAttendance_store_cases (s : Store) (class_id : String) (body : Option JsonField)
    (today : String) (faults : Nat → Bool) :
    ((postAttendance s class_id body today faults).1 = s ∧
      ∀ cid u d, marks s (.markAttendance class_id body today faults) cid u d = false) ∨
    ∃ st ∈ s.students,
      (postAttendance s class_id body today faults).1 =
        applyAttendance s st.id today "Present" ∧
      ∀ cid u d, marks s (.markAttendance class_id body today faults) cid u d =
        (st.classId == cid && st.uniqueNumber == u && today == d) := by
  by_cases h : (postAttendance s class_id body today faults).2.status = 200
  · obtain ⟨u0, cid0, st, hbody, _, hp, _, _, hfind, hpost⟩ := postAttendance_ok h
    right
    have hk := List.find?_some hfind
    rw [hasKey_iff] at hk
    refine ⟨st, List.mem_of_find?_eq_some hfind, by rw [hpost], ?_⟩
    intro cid u d
    subst hbody
    rw [Bool.eq_iff_iff]
    simp [marks, h, hp, hk.1, hk.2]
  · left
    refine ⟨postAttendance_not_ok s class_id body today faults h, ?_⟩
    intro cid u d
    unfold marks
    simp [h]

theorem handle_WF {s : Store} (req : Request) (h : s.WF) : (handle s req).1.WF := by
  cases req with
  | root => exact h
  | createClass body faults =>
    obtain ⟨h1, _, h3⟩ := postClasses_students s body faults
    exact ⟨by simp only [handle]; rw [h1]; exact h.ids,
      by simp only [handle]; unfold Store.uniqueStudents; rw [h1]; exact h.keys,
      by simp only [handle]; rw [h1, h3]; exact h.below⟩
  | importStudents class_id upload faults =>
    simp only [handle]
    rcases postImport_store_cases s class_id upload faults with hs | ⟨cid, l, hs⟩
    · rw [hs]; exact h
    · rw [hs]; exact applyUpserts_WF cid l h
  | markAttendance class_id body today faults =>
    simp only [handle]
    rcases postAttendance_store_cases s class_id body today faults with hs | ⟨st, _, hs, _⟩
    · rw [hs.1]; exact h
    · rw [hs]
      obtain ⟨h1, _, h3, _⟩ := applyAttendance_students s st.id today "Present"
      exact ⟨by rw [h1]; exact h.ids, by unfold Store.uniqueStudents; rw [h1]; exact h.keys,
        by rw [h1, h3]; exact h.below⟩
  | listPresent class_id dateParam today faults => exact h
  | listAbsent class_id dateParam today faults => exact h

theorem handle_persist (s : Store) (req : Request) :
    ∀ x ∈ s.students, ∃ y ∈ (handle s req).1.students,
      y.id = x.id ∧ y.uniqueNumber = x.uniqueNumber ∧ y.classId = x.classId := by
  intro x hx
  cases req with
  | root => exact ⟨x, hx, rfl, rfl, rfl⟩
  | createClass body faults =>
    simp only [handle]
    rw [(postClasses_students s body faults).1]
    exact ⟨x, hx, rfl, rfl, rfl⟩
  | importStudents class_id upload faults =>
    simp only [handle]
    rcases postImport_store_cases s class_id upload faults with hs | ⟨cid, l, hs⟩
    · rw [hs]; exact ⟨x, hx, rfl, rfl, rfl⟩
    · rw [hs]; exact applyUpserts_persist cid l s x hx
  | markAttendance class_id body today faults =>
    simp only [handle]
    rcases postAttendance_store_cases s class_id body today faults with hs | ⟨st, _, hs, _⟩
    · rw [hs.1]; exact ⟨x, hx, rfl, rfl, rfl⟩
    · rw [hs, (applyAttendance_students s st.id today "Present").1]
      exact ⟨x, hx, rfl, rfl, rfl⟩
  | listPresent class_id dateParam today faults => exact ⟨x, hx, rfl, rfl, rfl⟩
  | listAbsent class_id dateParam today faults => exact ⟨x, hx, rfl, rfl, rfl⟩

/-- What a request does to the attendance the list handlers look up. -/
theorem handle_attendance (s : Store) (req : Request) :
    ((∀ i d, hasAttendance (handle s req).1 i d "Present" = hasAttendance s i d "Present") ∧
      ∀ cid u d, marks s req cid u d = false) ∨
    ∃ st ∈ s.students, ∃ t,
      (∀ i d, hasAttendance (handle s req).1 i d "Present" =
        (hasAttendance s i d "Present" || (i == st.id && d == t))) ∧
      ∀ cid u d, marks s req cid u d = (st.classId == cid && st.uniqueNumber == u && t == d) := by
  cases req with
  | root => exact Or.inl ⟨fun _ _ => rfl, fun _ _ _ => rfl⟩
  | createClass body faults =>
    exact Or.inl ⟨fun i d => hasAttendance_congr (postClasses_students s body faults).2.1 i d _,
      fun _ _ _ => rfl⟩
  | importStudents class_id upload faults =>
    left
    refine ⟨fun i d => hasAttendance_congr ?_ i d _, fun _ _ _ => rfl⟩
    simp only [handle]
    rcases postImport_store_cases s class_id upload faults with hs | ⟨cid, l, hs⟩
    · rw [hs]
    · rw [hs, (applyUpserts_classes cid l s).2.1]
  | markAttendance class_id body today faults =>
    rcases postAttendance_store_cases s class_id body today faults with hs | ⟨st, hst, hs, hm⟩
    · left
      refine ⟨fun i d => ?_, hs.2⟩
      simp only [handle]
      rw [hs.1]
    · right
      refine ⟨st, hst, today, fun i d => ?_, hm⟩
      simp only [handle]
      rw [hs, hasAttendance_applyAttendance]
  | listPresent class_id dateParam today faults =>
    exact Or.inl ⟨fun _ _ => rfl, fun _ _ _ => rfl⟩
  | listAbsent class_id dateParam today faults =>
    exact Or.inl ⟨fun _ _ => rfl, fun _ _ _ => rfl⟩

/-- Along a run the constraints hold, the students stay, with their ids and
keys, and a student has a `Present` row for a date exactly when it had one at
the start or was marked on that date during the run. -/
theorem run_attendance (reqs : List Request) (s : Store) (h : s.WF) :
    (run s reqs).WF ∧
    (∀ x ∈ s.students, ∃ y ∈ (run s reqs).students,
      y.id = x.id ∧ y.uniqueNumber = x.uniqueNumber ∧ y.classId = x.classId) ∧
    ∀ y ∈ (run s reqs).students, ∀ d,
      hasAttendance (run s reqs) y.id d "Present" =
        (hasAttendance s y.id d "Present" || markedIn y.classId y.uniqueNumber d s reqs) := by
  induction reqs generalizing s with
  | nil =>
    refine ⟨h, fun x hx => ⟨x, hx, rfl, rfl, rfl⟩, fun y _ d => ?_⟩
    simp [run, markedIn]
  | cons req rest ih =>
    obtain ⟨hwf, hpers, hatt⟩ := ih (handle s req).1 (handle_WF req h)
    refine ⟨hwf, ?_, ?_⟩
    · intro x hx
      obtain ⟨y, hy, h1, h2, h3⟩ := handle_persist s req x hx
      obtain ⟨z, hz, g1, g2, g3⟩ := hpers y hy
      exact ⟨z, hz, g1.trans h1, g2.trans h2, g3.trans h3⟩
    · intro y hy d
      simp only [run, markedIn]
      rw [hatt y hy d]
      rcases handle_attendance s req with ⟨hsame, hno⟩ | ⟨st, hst, t, hadd, hm⟩
      · rw [hsame, hno, Bool.false_or]
      · rw [hadd, hm, Bool.or_assoc]
        congr 2
        -- the student marked is still in the table at the end, under its id and key
        obtain ⟨x, hx, h1, h2, h3⟩ := handle_persist s req st hst
        obtain ⟨z, hz, g1, g2, g3⟩ := hpers x hx
        have hid : z.id = st.id := g1.trans h1
        have hnum : z.uniqueNumber = st.uniqueNumber := g2.trans h2
        have hcls : z.classId = st.classId := g3.trans h3
        simp only [run] at hy hz
        by_cases hyz : y = z
        · subst hyz
          simp only [hid, hnum, hcls, beq_self_eq_true, Bool.true_and, Bool.and_self]
          rw [Bool.eq_iff_iff]
          simp only [beq_iff_eq]
          exact eq_comm
        · have hne1 : y.id ≠ st.id := by
            intro e
            exact hyz (List.inj_on_of_nodup_map hwf.ids hy hz (e.trans hid.symm))
          have hne2 : ¬ (st.classId = y.classId ∧ st.uniqueNumber = y.uniqueNumber) := by
            rintro ⟨e1, e2⟩
            apply hyz
            apply List.inj_on_of_nodup_map hwf.keys hy hz
            simp only [Prod.mk.injEq]
            exact ⟨e2.symm.trans hnum.symm, e1.symm.trans hcls.symm⟩
          have l1 : (y.id == st.id) = false := by simpa using hne1
          have l2 : (st.classId == y.classId && st.uniqueNumber == y.uniqueNumber) = false := by
            rw [Bool.eq_false_iff]
            simpa using hne2
          rw [l1, l2]
          simp

theorem Store.empty_WF : Store.empty.WF :=
  ⟨by simp [Store.empty], by simp [Store.uniqueStudents, Store.empty],
    by simp [Store.empty]⟩

/-- C6: after any sequence of requests served from the empty database, so
that every student was created by an import, for a class that exists and a
store that does not fail: the present list of a date is exactly the students
of the class that were marked on that date (by a mark-attendance request
answered 200 and served on that date), and the absent list is exactly the
students of the class that were not. In particular, for students A and B of the
class, A marked on the date and B not, the present list has A and not B and the
absent list has B and not A. With no `date` parameter the date is today. -/
theorem present_absent_after_run (reqs : List Request) (class_id : String) (cid : Int)
    (dateParam : Option String) (today : String) (faults : Nat → Bool)
    (hp : parseInt class_id = some cid) (hc : (run Store.empty reqs).hasClass cid = true)
    (hf0 : faults 0 = false) (hf1 : faults 1 = false) :
    ∃ present_students absent_students : List Listed,
      getPresent (run Store.empty reqs) class_id dateParam today faults =
        ⟨200, .present (some cid) (dateOrToday dateParam today) present_students⟩ ∧
      getAbsent (run Store.empty reqs) class_id dateParam today faults =
        ⟨200, .absent (some cid) (dateOrToday dateParam today) absent_students⟩ ∧
      present_students = (((run Store.empty reqs).studentsOf cid).filter (fun st =>
        markedIn cid st.uniqueNumber (dateOrToday dateParam today) Store.empty reqs)).map
          listed ∧
      absent_students = (((run Store.empty reqs).studentsOf cid).filter (fun st =>
        !markedIn cid st.uniqueNumber (dateOrToday dateParam today) Store.empty reqs)).map
          listed ∧
      ∀ A B : Student, A ∈ (run Store.empty reqs).studentsOf cid →
        B ∈ (run Store.empty reqs).studentsOf cid →
        markedIn cid A.uniqueNumber (dateOrToday dateParam today) Store.empty reqs = true →
        markedIn cid B.uniqueNumber (dateOrToday dateParam today) Store.empty reqs = false →
        listed A ∈ present_students ∧ listed B ∉ present_students ∧
          listed B ∈ absent_students ∧ listed A ∉ absent_students := by
  obtain ⟨hpres, habs⟩ := getPresent_getAbsent_found dateParam today hp hc hf0 hf1
  obtain ⟨_, _, hatt⟩ := run_attendance reqs Store.empty Store.empty_WF
  have hkey : ∀ y ∈ (run Store.empty reqs).students,
      hasAttendance (run Store.empty reqs) y.id (dateOrToday dateParam today) "Present" =
        markedIn y.classId y.uniqueNumber (dateOrToday dateParam today) Store.empty reqs := by
    intro y hy
    rw [hatt y hy]
    simp [hasAttendance, Store.empty]
  have e1 : (run Store.empty reqs).students.filter (fun st => st.classId == cid &&
      hasAttendance (run Store.empty reqs) st.id (dateOrToday dateParam today) "Present") =
      ((run Store.empty reqs).studentsOf cid).filter (fun st =>
        markedIn cid st.uniqueNumber (dateOrToday dateParam today) Store.empty reqs) := by
    unfold Store.studentsOf
    rw [List.filter_filter]
    apply List.filter_congr
    intro y hy
    rw [hkey y hy, Bool.and_comm]
    by_cases hcl : y.classId = cid
    · rw [hcl]
    · have : (y.classId == cid) = false := by simpa using hcl
      rw [this, Bool.and_false, Bool.and_false]
  have e2 : (run Store.empty reqs).students.filter (fun st => st.classId == cid &&
      !hasAttendance (run Store.empty reqs) st.id (dateOrToday dateParam today) "Present") =
      ((run Store.empty reqs).studentsOf cid).filter (fun st =>
        !markedIn cid st.uniqueNumber (dateOrToday dateParam today) Store.empty reqs) := by
    unfold Store.studentsOf
    rw [List.filter_filter]
    apply List.filter_congr
    intro y hy
    rw [hkey y hy, Bool.and_comm]
    by_cases hcl : y.classId = cid
    · rw [hcl]
    · have : (y.classId == cid) = false := by simpa using hcl
      rw [this, Bool.and_false, Bool.and_false]
  rw [e1] at hpres
  rw [e2] at habs
  refine ⟨_, _, hpres, habs, rfl, rfl, ?_⟩
  intro A B hA hB hmA hmB
  refine ⟨?_, ?_, ?_, ?_⟩
  · exact List.mem_map.2 ⟨A, List.mem_filter.2 ⟨hA, hmA⟩, rfl⟩
  · intro hmem
    obtain ⟨X, hX, hXB⟩ := List.mem_map.1 hmem
    rw [List.mem_filter] at hX
    have hnum : X.uniqueNumber = B.uniqueNumber := congrArg Listed.unique_number hXB
    rw [hnum, hmB] at hX
    exact Bool.noConfusion hX.2
  · exact List.mem_map.2 ⟨B, List.mem_filter.2 ⟨hB, by simp [hmB]⟩, rfl⟩
  · intro hmem
    obtain ⟨X, hX, hXA⟩ := List.mem_map.1 hmem
    rw [List.mem_filter] at hX
    have hnum : X.uniqueNumber = A.uniqueNumber := congrArg Listed.unique_number hXA
    rw [hnum, hmA] at hX
    simp at hX

/-- The run `schoolDay`: Ann was marked and Bob was not. -/
theorem present_absent_after_run_witness :
    (parseInt "1" = some 1 ∧ (run Store.empty schoolDay).hasClass 1 = true ∧
      noFaults 0 = false ∧ noFaults 1 = false) ∧
    getPresent (run Store.empty schoolDay) "1" none "2024-05-06" noFaults =
      ⟨200, .present (some 1) "2024-05-06" [⟨"1", "Ann"⟩]⟩ ∧
    getAbsent (run Store.empty schoolDay) "1" none "2024-05-06" noFaults =
      ⟨200, .absent (some 1) "2024-05-06" [⟨"2", "Bob"⟩]⟩ := by
  obtain ⟨p, a, h1, h2, h3, h4, _⟩ := present_absent_after_run schoolDay "1" 1 none
    "2024-05-06" noFaults (by decide) (by decide) (by decide) (by decide)
  refine ⟨⟨by decide, by decide, by decide, by decide⟩, ?_, ?_⟩
  · rw [h1, h3]
    decide
  · rw [h2, h4]
    decide

end AttendanceApi
